import Mathlib

/-!
# GanhosPro — aggregation and derived-metrics engine, verified model

A shallow embedding of the aggregation/derived-metrics core of the GanhosPro
driver-earnings tracker, together with proofs and refutations of its
specification claims.

Conventions of the embedding:

* JavaScript `number` values carried by entries (earnings, kilometres, hours,
  costs) are modelled as exact rationals (`ℚ`); guarded divisions are modelled
  as in the source (`x > 0 ? a / x : fallback`).
* Calendar dates are modelled by their civil (proleptic Gregorian) fields and
  by day numbers counted from the Unix epoch, assuming a UTC environment (the
  app stores dates as `YYYY-MM-DD` strings; `new Date(s)` then denotes UTC
  midnight of that civil date).  `daysFromCivil` is Howard Hinnant's
  `days_from_civil`, the arithmetic behind JavaScript `Date.UTC`, and
  `civilFromDays` is its inverse, the model of the `getUTCFullYear` /
  `getUTCMonth` / `getUTCDate` field extraction.  On `Int`, `/` and `%` are
  Euclidean (floor semantics for the positive constant divisors used here),
  matching JavaScript's `Math.floor`-based day arithmetic.
-/

namespace GanhosPro

/-- A civil (proleptic Gregorian) calendar date; valid dates have
month `1..12` and day `1..daysInMonth`. -/
structure CivilDate where
  year : Int
  month : Int
  day : Int
  deriving DecidableEq, Repr

/-- Day-of-era at which (March-based) year-of-era `y` starts. -/
def dos (y : Int) : Int := 365 * y + y / 4 - y / 100

/-- Day-of-year offset at which (March-based) month `mp` (`0 = March`) starts. -/
def dom (mp : Int) : Int := (153 * mp + 2) / 5

/-- Year-of-era of a day-of-era, computed by an estimate and one correction
step (any correct computation of this quantity models the year extraction of
the JavaScript `Date` built-in). -/
def yoeOfDoe (doe : Int) : Int :=
  let ya := doe / 366
  if ya ≤ 398 ∧ dos (ya + 1) ≤ doe then ya + 1 else ya

/-- Days since the Unix epoch (1970-01-01) of a civil date (Howard Hinnant's
`days_from_civil`); the day-number arithmetic behind JavaScript
`Date.UTC(y, m-1, d) / 86400000`.  The formula is linear in `d` and agrees
with JavaScript's field-overflow normalization for out-of-range `m` / `d`. -/
def daysFromCivil (y m d : Int) : Int :=
  let y' := if m ≤ 2 then y - 1 else y
  let era := y' / 400
  let yoe := y' - era * 400
  let mp := if 2 < m then m - 3 else m + 9
  era * 146097 + dos yoe + (dom mp + d - 1) - 719468

def eraOfDays (z : Int) : Int := (z + 719468) / 146097
def doeOfDays (z : Int) : Int := z + 719468 - eraOfDays z * 146097
def yoeOfDays (z : Int) : Int := yoeOfDoe (doeOfDays z)
def doyOfDays (z : Int) : Int := doeOfDays z - dos (yoeOfDays z)
def mpOfDays (z : Int) : Int := (5 * doyOfDays z + 2) / 153

/-- Civil date of a day number (inverse of `daysFromCivil`); the model of
JavaScript's `getUTCFullYear` / `getUTCMonth` / `getUTCDate` extraction. -/
def civilFromDays (z : Int) : CivilDate :=
  let mp := mpOfDays z
  let d := doyOfDays z - dom mp + 1
  let m := if mp < 10 then mp + 3 else mp - 9
  ⟨if m ≤ 2 then yoeOfDays z + eraOfDays z * 400 + 1 else yoeOfDays z + eraOfDays z * 400,
   m, d⟩

/-- The Gregorian leap-year rule. -/
def isLeap (y : Int) : Prop := (y % 4 = 0 ∧ y % 100 ≠ 0) ∨ y % 400 = 0

instance (y : Int) : Decidable (isLeap y) := by unfold isLeap; infer_instance

/-- Length of civil month `m` of year `y`. -/
def daysInMonth (y m : Int) : Int :=
  if m = 2 then (if isLeap y then 29 else 28)
  else if m = 4 ∨ m = 6 ∨ m = 9 ∨ m = 11 then 30 else 31

/-- A well-formed civil date. -/
def ValidDate (c : CivilDate) : Prop :=
  1 ≤ c.month ∧ c.month ≤ 12 ∧ 1 ≤ c.day ∧ c.day ≤ daysInMonth c.year c.month

instance (c : CivilDate) : Decidable (ValidDate c) := by unfold ValidDate; infer_instance

example : daysFromCivil 1970 1 1 = 0 := by decide
example : daysFromCivil 2018 12 31 = 17896 := by decide
example : civilFromDays 17896 = ⟨2018, 12, 31⟩ := by decide
example : civilFromDays 0 = ⟨1970, 1, 1⟩ := by decide
example : daysFromCivil 2024 2 29 = 19782 := by decide
example : civilFromDays 19782 = ⟨2024, 2, 29⟩ := by decide
example : daysFromCivil 2024 13 1 = daysFromCivil 2025 1 1 := by decide
example : daysFromCivil 2024 0 15 = daysFromCivil 2023 12 15 := by decide

theorem yoe_key (doe : Int) (h1 : 0 ≤ doe) (h2 : doe < 146097) :
    0 ≤ yoeOfDoe doe ∧ yoeOfDoe doe ≤ 399 ∧ dos (yoeOfDoe doe) ≤ doe ∧
      doe - dos (yoeOfDoe doe) ≤ 365 ∧ (yoeOfDoe doe ≤ 398 → doe < dos (yoeOfDoe doe + 1)) := by
  simp only [yoeOfDoe, dos]
  split
  · omega
  · omega

theorem doe_bounds (z : Int) : 0 ≤ doeOfDays z ∧ doeOfDays z < 146097 := by
  simp only [doeOfDays, eraOfDays]
  omega

theorem days_key (z : Int) :
    0 ≤ yoeOfDays z ∧ yoeOfDays z ≤ 399 ∧ 0 ≤ doyOfDays z ∧ doyOfDays z ≤ 365 ∧
      (yoeOfDays z ≤ 398 → doeOfDays z < dos (yoeOfDays z + 1)) := by
  obtain ⟨h1, h2⟩ := doe_bounds z
  have key := yoe_key (doeOfDays z) h1 h2
  simp only [yoeOfDays] at *
  simp only [doyOfDays, yoeOfDays]
  omega

theorem mp_bounds (z : Int) : 0 ≤ mpOfDays z ∧ mpOfDays z ≤ 11 := by
  have key := days_key z
  simp only [mpOfDays]
  omega

/-- Round trip: converting a day number to a civil date and back is the identity. -/
theorem daysFromCivil_civilFromDays (z : Int) :
    daysFromCivil (civilFromDays z).year (civilFromDays z).month (civilFromDays z).day = z := by
  have key := days_key z
  have hdoe := doe_bounds z
  have hdoy : doyOfDays z = doeOfDays z - dos (yoeOfDays z) := rfl
  have hmp : mpOfDays z = (5 * doyOfDays z + 2) / 153 := rfl
  have hdoe2 : doeOfDays z = z + 719468 - eraOfDays z * 146097 := rfl
  have hera : eraOfDays z = (z + 719468) / 146097 := rfl
  have hmpb := mp_bounds z
  simp only [dos, dom] at *
  have hg : (yoeOfDays z + eraOfDays z * 400) / 400 = eraOfDays z := by omega
  by_cases hc : mpOfDays z < 10
  · have h1 : ¬ (mpOfDays z + 3 ≤ 2) := by omega
    have h2 : (2:Int) < mpOfDays z + 3 := by omega
    have h3 : mpOfDays z + 3 - 3 = mpOfDays z := by ring
    simp only [civilFromDays, daysFromCivil, if_pos hc, if_neg h1, if_pos h2, dos, dom, h3,
      add_sub_cancel_right, hg]
    omega
  · have h1 : mpOfDays z - 9 ≤ 2 := by omega
    have h2 : ¬ ((2:Int) < mpOfDays z - 9) := by omega
    have h3 : mpOfDays z - 9 + 9 = mpOfDays z := by ring
    simp only [civilFromDays, daysFromCivil, if_neg hc, if_pos h1, if_neg h2, dos, dom, h3,
      add_sub_cancel_right, hg]
    omega

/-- Civil year of a day number, the model of `getUTCFullYear`. -/
def yearOfDays (z : Int) : Int := (civilFromDays z).year

theorem jan1_closed (y : Int) :
    daysFromCivil y 1 1
      = ((y-1)/400) * 146097 + dos (y - 1 - ((y-1)/400) * 400) + 306 - 719468 := by
  have h1 : ((1:Int) ≤ 2) := by norm_num
  have h2 : ¬ ((2:Int) < 1) := by norm_num
  simp only [daysFromCivil, if_pos h1, if_neg h2, dom]
  norm_num

/-- The civil year of a day number brackets it between consecutive Jan 1sts. -/
theorem year_bounds (z : Int) :
    daysFromCivil (yearOfDays z) 1 1 ≤ z ∧ z < daysFromCivil (yearOfDays z + 1) 1 1 := by
  have key := days_key z
  have hmpb := mp_bounds z
  have hdoy : doyOfDays z = doeOfDays z - dos (yoeOfDays z) := rfl
  have hmp : mpOfDays z = (5 * doyOfDays z + 2) / 153 := rfl
  have hdoe2 : doeOfDays z = z + 719468 - eraOfDays z * 146097 := rfl
  have hera : eraOfDays z = (z + 719468) / 146097 := rfl
  simp only [dos, dom] at *
  have hg : (yoeOfDays z + eraOfDays z * 400) / 400 = eraOfDays z := by omega
  rw [yearOfDays, civilFromDays]
  by_cases hc : mpOfDays z < 10
  · simp only [if_pos hc]
    rw [if_neg (by omega : ¬ (mpOfDays z + 3 ≤ 2))]
    rw [jan1_closed, jan1_closed]
    simp only [dos, dom, add_sub_cancel_right, hg]
    omega
  · simp only [if_neg hc]
    rw [if_pos (by omega : mpOfDays z - 9 ≤ 2)]
    rw [jan1_closed, jan1_closed]
    simp only [dos, dom, add_sub_cancel_right, hg]
    omega

/-- Jan 1 day numbers are monotone in the year. -/
theorem jan1_mono {a b : Int} (h : a ≤ b) :
    daysFromCivil a 1 1 ≤ daysFromCivil b 1 1 := by
  rw [jan1_closed, jan1_closed]
  simp only [dos]
  omega

/-- The civil year is monotone in the day number. -/
theorem yearOfDays_mono {z1 z2 : Int} (h : z1 ≤ z2) : yearOfDays z1 ≤ yearOfDays z2 := by
  by_contra hlt
  push_neg at hlt
  have h1 := (year_bounds z1).1
  have h2 := (year_bounds z2).2
  have := jan1_mono (by omega : yearOfDays z2 + 1 ≤ yearOfDays z1)
  omega

theorem dos_mono {a b : Int} (h : a ≤ b) : dos a ≤ dos b := by
  unfold dos
  omega

theorem yoeOfDoe_unique (doe u : Int) (h1 : 0 ≤ doe) (h2 : doe < 146097)
    (h3 : 0 ≤ u) (h4 : u ≤ 399) (h5 : dos u ≤ doe) (h6 : doe < dos (u + 1)) :
    yoeOfDoe doe = u := by
  have key := yoe_key doe h1 h2
  rcases lt_trichotomy (yoeOfDoe doe) u with h | h | h
  · exfalso
    have := dos_mono (by omega : yoeOfDoe doe + 1 ≤ u)
    have h5' := key.2.2.2.2 (by omega)
    omega
  · exact h
  · exfalso
    have := dos_mono (by omega : u + 1 ≤ yoeOfDoe doe)
    have h3' := key.2.2.1
    omega

/-- Round trip on civil dates with day `1..28`: converting to a day number and
back recovers the civil fields. -/
theorem civilFromDays_daysFromCivil (y m d : Int) (h1 : 1 ≤ m) (h2 : m ≤ 12)
    (h3 : 1 ≤ d) (h4 : d ≤ 28) :
    civilFromDays (daysFromCivil y m d) = ⟨y, m, d⟩ := by
  by_cases hm : m ≤ 2
  · have hz : daysFromCivil y m d
        = ((y-1)/400) * 146097 + dos (y - 1 - ((y-1)/400) * 400) + (dom (m + 9) + d - 1)
          - 719468 := by
      simp only [daysFromCivil, if_pos hm, if_neg (by omega : ¬ (2 < m))]
    have hA : dos (y - 1 - ((y-1)/400) * 400)
        = 365 * (y - 1 - ((y-1)/400) * 400) + (y - 1 - ((y-1)/400) * 400) / 4
          - (y - 1 - ((y-1)/400) * 400) / 100 := rfl
    have hA1 : dos (y - 1 - ((y-1)/400) * 400 + 1)
        = 365 * (y - 1 - ((y-1)/400) * 400 + 1) + (y - 1 - ((y-1)/400) * 400 + 1) / 4
          - (y - 1 - ((y-1)/400) * 400 + 1) / 100 := rfl
    have hB : dom (m + 9) = (153 * (m + 9) + 2) / 5 := rfl
    have hera : eraOfDays (daysFromCivil y m d) = (y-1)/400 := by
      rw [hz]
      unfold eraOfDays
      omega
    have hdoe : doeOfDays (daysFromCivil y m d)
        = dos (y - 1 - ((y-1)/400) * 400) + (dom (m + 9) + d - 1) := by
      rw [doeOfDays, hera, hz]
      ring
    have hyoe : yoeOfDays (daysFromCivil y m d) = y - 1 - ((y-1)/400) * 400 := by
      rw [yoeOfDays, hdoe]
      refine yoeOfDoe_unique _ _ (by omega) (by omega) (by omega) (by omega) (by omega)
        (by omega)
    have hdoy : doyOfDays (daysFromCivil y m d) = dom (m + 9) + d - 1 := by
      rw [doyOfDays, hdoe, hyoe]
      ring
    have hmp : mpOfDays (daysFromCivil y m d) = m + 9 := by
      rw [mpOfDays, hdoy]
      omega
    rw [civilFromDays, hmp, hdoy, hyoe, hera]
    rw [if_neg (by omega : ¬ (m + 9 < 10))]
    rw [if_pos (by omega : m + 9 - 9 ≤ 2)]
    have e1 : dom (m + 9) + d - 1 - dom (m + 9) + 1 = d := by ring
    have e2 : y - 1 - ((y-1)/400) * 400 + ((y-1)/400) * 400 + 1 = y := by ring
    have e3 : m + 9 - 9 = m := by ring
    rw [e1, e2, e3]
  · have hz : daysFromCivil y m d
        = (y/400) * 146097 + dos (y - (y/400) * 400) + (dom (m - 3) + d - 1) - 719468 := by
      simp only [daysFromCivil, if_neg hm, if_pos (by omega : 2 < m)]
    have hA : dos (y - (y/400) * 400)
        = 365 * (y - (y/400) * 400) + (y - (y/400) * 400) / 4 - (y - (y/400) * 400) / 100 :=
      rfl
    have hA1 : dos (y - (y/400) * 400 + 1)
        = 365 * (y - (y/400) * 400 + 1) + (y - (y/400) * 400 + 1) / 4
          - (y - (y/400) * 400 + 1) / 100 := rfl
    have hB : dom (m - 3) = (153 * (m - 3) + 2) / 5 := rfl
    have hera : eraOfDays (daysFromCivil y m d) = y/400 := by
      rw [hz]
      unfold eraOfDays
      omega
    have hdoe : doeOfDays (daysFromCivil y m d)
        = dos (y - (y/400) * 400) + (dom (m - 3) + d - 1) := by
      rw [doeOfDays, hera, hz]
      ring
    have hyoe : yoeOfDays (daysFromCivil y m d) = y - (y/400) * 400 := by
      rw [yoeOfDays, hdoe]
      refine yoeOfDoe_unique _ _ (by omega) (by omega) (by omega) (by omega) (by omega)
        (by omega)
    have hdoy : doyOfDays (daysFromCivil y m d) = dom (m - 3) + d - 1 := by
      rw [doyOfDays, hdoe, hyoe]
      ring
    have hmp : mpOfDays (daysFromCivil y m d) = m - 3 := by
      rw [mpOfDays, hdoy]
      omega
    rw [civilFromDays, hmp, hdoy, hyoe, hera]
    rw [if_pos (by omega : m - 3 < 10)]
    rw [if_neg (by omega : ¬ (m - 3 + 3 ≤ 2))]
    have e1 : dom (m - 3) + d - 1 - dom (m - 3) + 1 = d := by ring
    have e2 : y - (y/400) * 400 + (y/400) * 400 = y := by ring
    have e3 : m - 3 + 3 = m := by ring
    rw [e1, e2, e3]

/-- Day of week of a day number, `0 = Sunday .. 6 = Saturday`
(model of JavaScript `getUTCDay` / `getDay` in a UTC environment). -/
def dowOfDays (z : Int) : Int := (z + 4) % 7

/-- ISO weekday `Mon = 1 .. Sun = 7`, as the source computes it:
`d.getUTCDay() || 7`. -/
def dayNumOfDays (z : Int) : Int := if dowOfDays z = 0 then 7 else dowOfDays z

/-- The Thursday of the ISO (Monday-start) week containing `z`, as the source
computes it: `d.setUTCDate(d.getUTCDate() + 4 - dayNum)`. -/
def thuOfDays (z : Int) : Int := z + 4 - dayNumOfDays z

theorem dayNum_eq (z : Int) : dayNumOfDays z = 1 + (z + 3) % 7 := by
  simp only [dayNumOfDays, dowOfDays]
  split
  · omega
  · omega

theorem thu_mono {z1 z2 : Int} (h : z1 ≤ z2) : thuOfDays z1 ≤ thuOfDays z2 := by
  simp only [thuOfDays, dayNum_eq]
  omega

theorem thu_near (z : Int) : z - 3 ≤ thuOfDays z ∧ thuOfDays z ≤ z + 3 := by
  simp only [thuOfDays, dayNum_eq]
  omega

/-- Consecutive Jan 1 day numbers are 365 or 366 days apart. -/
theorem jan1_year_len (y : Int) :
    365 ≤ daysFromCivil (y+1) 1 1 - daysFromCivil y 1 1 ∧
      daysFromCivil (y+1) 1 1 - daysFromCivil y 1 1 ≤ 366 := by
  rw [jan1_closed, jan1_closed]
  simp only [add_sub_cancel_right, dos]
  omega

/-- ISO year of a day number: the civil year of the Thursday of its week. -/
def isoYearOfDays (z : Int) : Int := yearOfDays (thuOfDays z)

/-- ISO week number of a day number, as the source computes it:
`Math.ceil(((thu - yearStart) / 86400000 + 1) / 7)` (`⌈x⌉ = -⌊-x⌋`). -/
def weekNoOfDays (z : Int) : Int :=
  -(-(thuOfDays z - daysFromCivil (isoYearOfDays z) 1 1 + 1) / 7)

theorem weekNo_bounds (z : Int) : 1 ≤ weekNoOfDays z ∧ weekNoOfDays z ≤ 53 := by
  have hb := year_bounds (thuOfDays z)
  have hl := jan1_year_len (yearOfDays (thuOfDays z))
  rw [weekNoOfDays, isoYearOfDays]
  omega

theorem weekNo_mono {z1 z2 : Int} (h : z1 ≤ z2) (hy : isoYearOfDays z1 = isoYearOfDays z2) :
    weekNoOfDays z1 ≤ weekNoOfDays z2 := by
  have ht := thu_mono h
  rw [weekNoOfDays, weekNoOfDays, hy]
  omega

theorem isoYear_mono {z1 z2 : Int} (h : z1 ≤ z2) : isoYearOfDays z1 ≤ isoYearOfDays z2 :=
  yearOfDays_mono (thu_mono h)

/-- Day numbers of the days of civil year `y` are bracketed by its Jan 1sts. -/
theorem civil_year_bounds (y m d : Int) (h1 : 1 ≤ m) (h2 : m ≤ 12) (h3 : 1 ≤ d)
    (h4 : d ≤ daysInMonth y m) :
    daysFromCivil y 1 1 ≤ daysFromCivil y m d ∧ daysFromCivil y m d < daysFromCivil (y+1) 1 1 := by
  rw [jan1_closed, jan1_closed]
  by_cases hm : m ≤ 2
  · have hz : daysFromCivil y m d
        = ((y-1)/400) * 146097 + dos (y - 1 - ((y-1)/400) * 400) + (dom (m + 9) + d - 1)
          - 719468 := by
      simp only [daysFromCivil, if_pos hm, if_neg (by omega : ¬ (2 < m))]
    rw [hz]
    by_cases hm2 : m = 2
    · subst hm2
      by_cases hl : isLeap y
      · unfold isLeap at hl
        simp only [daysInMonth, if_pos rfl, if_pos hl] at h4
        simp only [add_sub_cancel_right, dos, dom] at *
        omega
      · unfold isLeap at hl
        simp only [daysInMonth, if_pos rfl, if_neg hl] at h4
        simp only [add_sub_cancel_right, dos, dom] at *
        omega
    · have hm1 : m = 1 := by omega
      subst hm1
      simp only [daysInMonth] at h4
      norm_num at h4
      simp only [add_sub_cancel_right, dos, dom] at *
      omega
  · have hz : daysFromCivil y m d
        = (y/400) * 146097 + dos (y - (y/400) * 400) + (dom (m - 3) + d - 1) - 719468 := by
      simp only [daysFromCivil, if_neg hm, if_pos (by omega : 2 < m)]
    rw [hz]
    have h4' : d ≤ 31 := by
      simp only [daysInMonth] at h4
      split at h4
      · omega
      · split at h4
        · omega
        · omega
    simp only [add_sub_cancel_right, dos, dom] at *
    omega

/-- The ISO year of a valid civil date differs from its civil year by at most 1. -/
theorem isoYear_range (y m d : Int) (h1 : 1 ≤ m) (h2 : m ≤ 12) (h3 : 1 ≤ d)
    (h4 : d ≤ daysInMonth y m) :
    y - 1 ≤ isoYearOfDays (daysFromCivil y m d)
      ∧ isoYearOfDays (daysFromCivil y m d) ≤ y + 1 := by
  have hcb := civil_year_bounds y m d h1 h2 h3 h4
  have hnear := thu_near (daysFromCivil y m d)
  have hyb := year_bounds (thuOfDays (daysFromCivil y m d))
  have hl1 := jan1_year_len (y - 1)
  have hl2 := jan1_year_len (y + 1)
  rw [isoYearOfDays]
  constructor
  · by_contra hlt
    push_neg at hlt
    have := jan1_mono (by omega : yearOfDays (thuOfDays (daysFromCivil y m d)) + 1 ≤ y - 1)
    have he : y - 1 + 1 = y := by ring
    rw [he] at hl1
    omega
  · by_contra hlt
    push_neg at hlt
    have := jan1_mono (by omega : y + 2 ≤ yearOfDays (thuOfDays (daysFromCivil y m d)))
    have he : y + 1 + 1 = y + 2 := by ring
    rw [he] at hl2
    omega

/-- The ten decimal digit characters. -/
def digitChar (d : Nat) : Char :=
  match d with
  | 0 => '0' | 1 => '1' | 2 => '2' | 3 => '3' | 4 => '4'
  | 5 => '5' | 6 => '6' | 7 => '7' | 8 => '8' | _ => '9'

theorem digitChar_toNat {d : Nat} (h : d < 10) : (digitChar d).toNat = 48 + d := by
  interval_cases d <;> rfl

/-- Decimal digits of a natural number, most significant first
(structural fuel recursion so that the kernel can evaluate it). -/
def natDigitsAux (fuel n : Nat) : List Nat :=
  match fuel with
  | 0 => []
  | fuel + 1 => if n < 10 then [n] else natDigitsAux fuel (n / 10) ++ [n % 10]

/-- Decimal digits of a natural number, most significant first. -/
def natDigits (n : Nat) : List Nat := natDigitsAux (n + 1) n

theorem natDigitsAux_fuel (f1 f2 n : Nat) (h1 : n < f1) (h2 : n < f2) :
    natDigitsAux f1 n = natDigitsAux f2 n := by
  induction f1 generalizing f2 n with
  | zero => omega
  | succ g ih =>
    cases f2 with
    | zero => omega
    | succ g2 =>
      simp only [natDigitsAux]
      by_cases h : n < 10
      · simp [h]
      · rw [if_neg h, if_neg h]
        rw [ih g2 (n / 10) (by omega) (by omega)]

theorem natDigits_eq (n : Nat) :
    natDigits n = if n < 10 then [n] else natDigits (n / 10) ++ [n % 10] := by
  by_cases h : n < 10
  · simp [natDigits, natDigitsAux, h]
  · rw [natDigits, natDigitsAux, if_neg h, natDigits]
    rw [natDigitsAux_fuel n (n / 10 + 1) (n / 10) (by omega) (by omega), if_neg h]

/-- Decimal rendering of a natural number (the model of JavaScript
template-string / `toString` conversion of a non-negative integer). -/
def natStr (n : Nat) : String := ⟨(natDigits n).map digitChar⟩

/-- Decimal rendering of an integer. -/
def intStr (i : Int) : String := if i < 0 then "-" ++ natStr i.natAbs else natStr i.toNat

/-- Model of `n.toString().padStart(2, '0')` for an integer `n`. -/
def pad2 (i : Int) : String := if 0 ≤ i ∧ i < 10 then "0" ++ intStr i else intStr i

example : natStr 2019 = "2019" := by decide
example : intStr 999 = "999" := by decide
example : pad2 1 = "01" := by decide
example : pad2 53 = "53" := by decide

/-- Lexicographic comparison of character lists by code point: the comparison
behind JavaScript string `<`/`sort()`. -/
def lexLeCh : List Char → List Char → Bool
  | [], _ => true
  | _ :: _, [] => false
  | c :: cs, d :: ds =>
    if c.toNat < d.toNat then true
    else if d.toNat < c.toNat then false
    else lexLeCh cs ds

/-- Strict lexicographic comparison of character lists by code point. -/
def lexLtCh : List Char → List Char → Bool
  | [], [] => false
  | [], _ :: _ => true
  | _ :: _, [] => false
  | c :: cs, d :: ds =>
    if c.toNat < d.toNat then true
    else if d.toNat < c.toNat then false
    else lexLtCh cs ds

/-- JavaScript string comparison `s <= t` (code-unit lexicographic order; the
order used by the default `Array.prototype.sort`). -/
def jsLe (s t : String) : Bool := lexLeCh s.data t.data

theorem lexLeCh_refl (l : List Char) : lexLeCh l l = true := by
  induction l with
  | nil => rfl
  | cons c cs ih =>
    simp only [lexLeCh, if_neg (lt_irrefl c.toNat), ih]

theorem lexLeCh_append_left (p r1 r2 : List Char) :
    lexLeCh (p ++ r1) (p ++ r2) = lexLeCh r1 r2 := by
  induction p with
  | nil => rfl
  | cons c cs ih =>
    simp only [List.cons_append, lexLeCh, if_neg (lt_irrefl c.toNat)]
    exact ih

theorem lexLeCh_append_of_lt (p1 p2 r1 r2 : List Char) (hlen : p1.length = p2.length)
    (hlt : lexLtCh p1 p2 = true) : lexLeCh (p1 ++ r1) (p2 ++ r2) = true := by
  induction p1 generalizing p2 with
  | nil =>
    cases p2 with
    | nil => simp [lexLtCh] at hlt
    | cons d ds => simp at hlen
  | cons c cs ih =>
    cases p2 with
    | nil => simp at hlen
    | cons d ds =>
      simp only [List.cons_append, lexLeCh]
      simp only [lexLtCh] at hlt
      by_cases h1 : c.toNat < d.toNat
      · simp [h1]
      · by_cases h2 : d.toNat < c.toNat
        · rw [if_neg h1, if_pos h2] at hlt
          exact absurd hlt (by simp)
        · rw [if_neg h1, if_neg h2] at hlt
          rw [if_neg h1, if_neg h2]
          exact ih ds (by simpa using hlen) hlt

theorem natDigits_one {n : Nat} (h : n < 10) : natDigits n = [n] := by
  rw [natDigits_eq, if_pos h]

theorem natDigits_two {n : Nat} (h1 : 10 ≤ n) (h2 : n ≤ 99) :
    natDigits n = [n / 10, n % 10] := by
  rw [natDigits_eq, if_neg (by omega), natDigits_one (by omega)]
  rfl

theorem natDigits_four {n : Nat} (h1 : 1000 ≤ n) (h2 : n ≤ 9999) :
    natDigits n = [n / 1000, n / 100 % 10, n / 10 % 10, n % 10] := by
  rw [natDigits_eq, if_neg (by omega), natDigits_eq, if_neg (by omega),
    natDigits_two (by omega) (by omega)]
  have e1 : n / 10 / 10 = n / 100 := by omega
  have e2 : n / 100 / 10 = n / 1000 := by omega
  have e3 : n / 100 % 10 = n / 100 % 10 := rfl
  rw [e1, e2]
  simp

theorem lexLt_digits4 {a b : Nat} (ha1 : 1000 ≤ a) (ha2 : a ≤ 9999) (hb1 : 1000 ≤ b)
    (hb2 : b ≤ 9999) (hab : a < b) :
    lexLtCh ((natDigits a).map digitChar) ((natDigits b).map digitChar) = true := by
  rw [natDigits_four ha1 ha2, natDigits_four hb1 hb2]
  have e1 := digitChar_toNat (show a / 1000 < 10 by omega)
  have e2 := digitChar_toNat (show a / 100 % 10 < 10 by omega)
  have e3 := digitChar_toNat (show a / 10 % 10 < 10 by omega)
  have e4 := digitChar_toNat (show a % 10 < 10 by omega)
  have f1 := digitChar_toNat (show b / 1000 < 10 by omega)
  have f2 := digitChar_toNat (show b / 100 % 10 < 10 by omega)
  have f3 := digitChar_toNat (show b / 10 % 10 < 10 by omega)
  have f4 := digitChar_toNat (show b % 10 < 10 by omega)
  simp only [List.map, lexLtCh, e1, e2, e3, e4, f1, f2, f3, f4]
  split_ifs <;> first | rfl | (exfalso; omega)

theorem lexLe_digits4 {a b : Nat} (ha1 : 1000 ≤ a) (ha2 : a ≤ 9999) (hb1 : 1000 ≤ b)
    (hb2 : b ≤ 9999) (hab : a ≤ b) :
    lexLeCh ((natDigits a).map digitChar) ((natDigits b).map digitChar) = true := by
  rw [natDigits_four ha1 ha2, natDigits_four hb1 hb2]
  have e1 := digitChar_toNat (show a / 1000 < 10 by omega)
  have e2 := digitChar_toNat (show a / 100 % 10 < 10 by omega)
  have e3 := digitChar_toNat (show a / 10 % 10 < 10 by omega)
  have e4 := digitChar_toNat (show a % 10 < 10 by omega)
  have f1 := digitChar_toNat (show b / 1000 < 10 by omega)
  have f2 := digitChar_toNat (show b / 100 % 10 < 10 by omega)
  have f3 := digitChar_toNat (show b / 10 % 10 < 10 by omega)
  have f4 := digitChar_toNat (show b % 10 < 10 by omega)
  simp only [List.map, lexLeCh, e1, e2, e3, e4, f1, f2, f3, f4]
  split_ifs <;> first | rfl | (exfalso; omega)

theorem natStr_data (n : Nat) : (natStr n).data = (natDigits n).map digitChar := rfl

theorem intStr_nonneg {i : Int} (h : 0 ≤ i) : intStr i = natStr i.toNat := by
  rw [intStr, if_neg (by omega)]

/-- The character list behind `pad2 i` for `0 ≤ i ≤ 99`. -/
theorem pad2_data {i : Int} (h1 : 0 ≤ i) (h2 : i ≤ 99) :
    (pad2 i).data = if i < 10 then ['0', digitChar i.toNat]
      else [digitChar (i.toNat / 10), digitChar (i.toNat % 10)] := by
  by_cases h : i < 10
  · rw [pad2, if_pos ⟨h1, h⟩, intStr_nonneg h1, if_pos h]
    rw [String.data_append, natStr_data, natDigits_one (by omega)]
    rfl
  · rw [pad2, if_neg (by omega), intStr_nonneg h1, if_neg h]
    rw [natStr_data, natDigits_two (by omega) (by omega)]
    rfl

theorem pad2_len {i : Int} (h1 : 0 ≤ i) (h2 : i ≤ 99) : (pad2 i).data.length = 2 := by
  rw [pad2_data h1 h2]
  split
  · rfl
  · rfl

theorem lexLe_pad2 {a b : Int} (h1 : 0 ≤ a) (h2 : a ≤ 99) (h3 : 0 ≤ b) (h4 : b ≤ 99)
    (hab : a ≤ b) : lexLeCh (pad2 a).data (pad2 b).data = true := by
  rw [pad2_data h1 h2, pad2_data h3 h4]
  have e1 := digitChar_toNat (show a.toNat / 10 < 10 by omega)
  have e2 := digitChar_toNat (show a.toNat % 10 < 10 by omega)
  have f1 := digitChar_toNat (show b.toNat / 10 < 10 by omega)
  have f2 := digitChar_toNat (show b.toNat % 10 < 10 by omega)
  by_cases ha : a < 10
  · by_cases hb : b < 10
    · rw [if_pos ha, if_pos hb]
      have ea := digitChar_toNat (show a.toNat < 10 by omega)
      have eb := digitChar_toNat (show b.toNat < 10 by omega)
      simp only [lexLeCh, ea, eb]
      split_ifs <;> first | rfl | (exfalso; omega)
    · rw [if_pos ha, if_neg hb]
      have ea := digitChar_toNat (show a.toNat < 10 by omega)
      simp only [lexLeCh, ea, f1, f2]
      have h0 : ('0').toNat = 48 := rfl
      rw [h0]
      split_ifs <;> first | rfl | (exfalso; omega)
  · by_cases hb : b < 10
    · exfalso
      omega
    · rw [if_neg ha, if_neg hb]
      simp only [lexLeCh, e1, e2, f1, f2]
      split_ifs <;> first | rfl | (exfalso; omega)

/-- Model of `getWeekKey` (GeneralReport.tsx, lines 41–48): normalize the civil
date to UTC midnight, shift to the Thursday of its ISO week
(`d.setUTCDate(d.getUTCDate() + 4 - (d.getUTCDay() || 7))`), take that
Thursday's UTC year and the week number
`Math.ceil((((d - yearStart) / 86400000) + 1) / 7)`, and render
`{year}-S{week.toString().padStart(2, '0')}`. -/
def getWeekKey (c : CivilDate) : String :=
  intStr (isoYearOfDays (daysFromCivil c.year c.month c.day))
    ++ "-S" ++ pad2 (weekNoOfDays (daysFromCivil c.year c.month c.day))

/-- Model of `getMonthKey` (GeneralReport.tsx, lines 50–54):
`{year}-{(month).toString().padStart(2, '0')}`. -/
def getMonthKey (c : CivilDate) : String := intStr c.year ++ "-" ++ pad2 c.month

/-- Model of `getYearKey` (GeneralReport.tsx, lines 56–58): `{year}`. -/
def getYearKey (c : CivilDate) : String := intStr c.year

example : getWeekKey ⟨2018, 12, 31⟩ = "2019-S01" := by decide
example : getWeekKey ⟨2024, 6, 15⟩ = "2024-S24" := by decide
example : getMonthKey ⟨2024, 6, 15⟩ = "2024-06" := by decide
example : getYearKey ⟨2024, 6, 15⟩ = "2024" := by decide

/-- Modelled from the spec: ISO weekday (`Mon = 1 .. Sun = 7`) of a day number. -/
def isoWeekdaySpec (z : Int) : Int := (z + 3) % 7 + 1

/-- Modelled from the spec: the date shifted to the Thursday of its ISO week
(`date += 4 - day`). -/
def isoThuSpec (z : Int) : Int := z + 4 - isoWeekdaySpec z

/-- Modelled from the spec: the ISO year is the year of the Thursday-shifted
date. -/
def isoYearSpec (c : CivilDate) : Int :=
  yearOfDays (isoThuSpec (daysFromCivil c.year c.month c.day))

/-- Modelled from the spec: week number
`ceil((shiftedDate - Jan1OfThatYear_UTC) / 1 day + 1) / 7)`. -/
def isoWeekNoSpec (c : CivilDate) : Int :=
  -(-(isoThuSpec (daysFromCivil c.year c.month c.day)
      - daysFromCivil (isoYearSpec c) 1 1 + 1) / 7)

theorem thu_eq_spec (z : Int) : thuOfDays z = isoThuSpec z := by
  rw [thuOfDays, dayNum_eq, isoThuSpec, isoWeekdaySpec]
  ring

theorem isoYearSpec_eq (c : CivilDate) :
    isoYearSpec c = isoYearOfDays (daysFromCivil c.year c.month c.day) := by
  rw [isoYearSpec, isoYearOfDays, thu_eq_spec]

theorem isoWeekNoSpec_eq (c : CivilDate) :
    isoWeekNoSpec c = weekNoOfDays (daysFromCivil c.year c.month c.day) := by
  rw [isoWeekNoSpec, weekNoOfDays, isoYearOfDays, isoYearSpec, thu_eq_spec]

/-- C2: for every valid calendar date, `getWeekKey` returns the string
`{isoYear}-S{weekNumber zero-padded to 2}` where the ISO year and week number
are computed by the ISO-8601 Thursday-shift algorithm stated in the spec
(shift by `4 - isoWeekday`, take that Thursday's year, week number
`ceil((shifted - Jan 1) / 1 day + 1) / 7)`, the week number lying in `1..53`);
and in particular `getWeekKey` of 2018-12-31 (a Monday) is `"2019-S01"`. -/
theorem claim_C2 :
    (∀ c : CivilDate, ValidDate c →
      getWeekKey c = intStr (isoYearSpec c) ++ "-S" ++ pad2 (isoWeekNoSpec c)
        ∧ 1 ≤ isoWeekNoSpec c ∧ isoWeekNoSpec c ≤ 53)
    ∧ getWeekKey ⟨2018, 12, 31⟩ = "2019-S01" := by
  refine ⟨fun c _ => ⟨?_, ?_⟩, by decide⟩
  · rw [getWeekKey, isoYearSpec_eq, isoWeekNoSpec_eq]
  · rw [isoWeekNoSpec_eq]
    exact weekNo_bounds _

/-- Witness for C2 at the concrete valid date 2024-06-15. -/
theorem claim_C2_witness :
    ValidDate ⟨2024, 6, 15⟩ ∧
      (getWeekKey ⟨2024, 6, 15⟩
          = intStr (isoYearSpec ⟨2024, 6, 15⟩) ++ "-S" ++ pad2 (isoWeekNoSpec ⟨2024, 6, 15⟩)
        ∧ 1 ≤ isoWeekNoSpec ⟨2024, 6, 15⟩ ∧ isoWeekNoSpec ⟨2024, 6, 15⟩ ≤ 53) :=
  ⟨by decide, claim_C2.1 ⟨2024, 6, 15⟩ (by decide)⟩

theorem dfc_low (y m d : Int) (hm : m ≤ 2) :
    daysFromCivil y m d
      = ((y-1)/400) * 146097 + dos (y - 1 - ((y-1)/400) * 400) + (dom (m + 9) + d - 1)
        - 719468 := by
  simp only [daysFromCivil, if_pos hm, if_neg (by omega : ¬ (2 < m))]

theorem dfc_high (y m d : Int) (hm : 2 < m) :
    daysFromCivil y m d
      = (y/400) * 146097 + dos (y - (y/400) * 400) + (dom (m - 3) + d - 1) - 719468 := by
  simp only [daysFromCivil, if_neg (by omega : ¬ (m ≤ 2)), if_pos hm]

theorem dfc_d_linear (y m d : Int) : daysFromCivil y m d = daysFromCivil y m 1 + (d - 1) := by
  by_cases hm : m ≤ 2
  · rw [dfc_low y m d hm, dfc_low y m 1 hm]
    ring
  · rw [dfc_high y m d (by omega), dfc_high y m 1 (by omega)]
    ring

theorem daysInMonth_lb (y m : Int) : 28 ≤ daysInMonth y m := by
  unfold daysInMonth
  split_ifs <;> norm_num

/-- Within a year, the start of month `m2` lies at least a month length past
the start of an earlier month `m1`. -/
theorem month_sep (y m1 m2 : Int) (h1 : 1 ≤ m1) (h2 : m1 < m2) (h3 : m2 ≤ 12) :
    daysFromCivil y m1 1 + daysInMonth y m1 ≤ daysFromCivil y m2 1 := by
  have hA : dos (y - 1 - ((y-1)/400) * 400)
      = 365 * (y - 1 - ((y-1)/400) * 400) + (y - 1 - ((y-1)/400) * 400) / 4
        - (y - 1 - ((y-1)/400) * 400) / 100 := rfl
  have hA2 : dos (y - (y/400) * 400)
      = 365 * (y - (y/400) * 400) + (y - (y/400) * 400) / 4 - (y - (y/400) * 400) / 100 := rfl
  by_cases hm1 : m1 ≤ 2
  · by_cases hm2 : m2 ≤ 2
    · have e1 : m1 = 1 := by omega
      have e2 : m2 = 2 := by omega
      subst e1
      subst e2
      rw [dfc_low y 1 1 (by norm_num), dfc_low y 2 1 (by norm_num)]
      have hd1 : dom (1 + 9) = 306 := by decide
      have hd2 : dom (2 + 9) = 337 := by decide
      have hdim : daysInMonth y 1 = 31 := by unfold daysInMonth; norm_num
      rw [hd1, hd2, hdim]
      omega
    · rw [dfc_low y m1 1 hm1, dfc_high y m2 1 (by omega)]
      have hB2 : dom (m2 - 3) = (153 * (m2 - 3) + 2) / 5 := rfl
      by_cases hf : m1 = 2
      · subst hf
        have hd2 : dom (2 + 9) = 337 := by decide
        rw [hd2]
        by_cases hl : isLeap y
        · unfold isLeap at hl
          have hdim : daysInMonth y 2 = 29 := by
            unfold daysInMonth
            rw [if_pos rfl, if_pos (by unfold isLeap; exact hl)]
          rw [hdim]
          omega
        · unfold isLeap at hl
          have hdim : daysInMonth y 2 = 28 := by
            unfold daysInMonth
            rw [if_pos rfl, if_neg (by unfold isLeap; exact hl)]
          rw [hdim]
          omega
      · have e1 : m1 = 1 := by omega
        subst e1
        have hd1 : dom (1 + 9) = 306 := by decide
        have hdim : daysInMonth y 1 = 31 := by unfold daysInMonth; norm_num
        rw [hd1, hdim]
        omega
  · rw [dfc_high y m1 1 (by omega), dfc_high y m2 1 (by omega)]
    have hB1 : dom (m1 - 3) = (153 * (m1 - 3) + 2) / 5 := rfl
    have hB2 : dom (m2 - 3) = (153 * (m2 - 3) + 2) / 5 := rfl
    have hdim : daysInMonth y m1 = if m1 = 4 ∨ m1 = 6 ∨ m1 = 9 ∨ m1 = 11 then 30 else 31 := by
      unfold daysInMonth
      rw [if_neg (by omega : ¬ (m1 = 2))]
    rw [hdim]
    have hm1r : 3 ≤ m1 := by omega
    have hm1u : m1 ≤ 11 := by omega
    interval_cases m1 <;> simp_all <;> omega

/-- Within a year, month starts are monotone in the month. -/
theorem month_start_mono (y m1 m2 : Int) (h1 : 1 ≤ m1) (h2 : m1 ≤ m2) (h3 : m2 ≤ 12) :
    daysFromCivil y m1 1 ≤ daysFromCivil y m2 1 := by
  rcases eq_or_lt_of_le h2 with h | h
  · subst h
    omega
  · have := month_sep y m1 m2 h1 h h3
    have := daysInMonth_lb y m1
    omega

/-- Chronological order of valid dates forces year order. -/
theorem year_le_of_le {c1 c2 : CivilDate} (v1 : ValidDate c1) (v2 : ValidDate c2)
    (h : daysFromCivil c1.year c1.month c1.day ≤ daysFromCivil c2.year c2.month c2.day) :
    c1.year ≤ c2.year := by
  obtain ⟨a1, a2, a3, a4⟩ := v1
  obtain ⟨b1, b2, b3, b4⟩ := v2
  have u1 := civil_year_bounds c1.year c1.month c1.day a1 a2 a3 a4
  have u2 := civil_year_bounds c2.year c2.month c2.day b1 b2 b3 b4
  by_contra hlt
  push_neg at hlt
  have := jan1_mono (show c2.year + 1 ≤ c1.year by omega)
  omega

/-- Chronological order of valid dates in the same year forces month order. -/
theorem month_le_of_le {c1 c2 : CivilDate} (v1 : ValidDate c1) (v2 : ValidDate c2)
    (hy : c1.year = c2.year)
    (h : daysFromCivil c1.year c1.month c1.day ≤ daysFromCivil c2.year c2.month c2.day) :
    c1.month ≤ c2.month := by
  obtain ⟨y1, m1, d1⟩ := c1
  obtain ⟨y2, m2, d2⟩ := c2
  simp only at hy h ⊢
  subst hy
  obtain ⟨a1, a2, a3, a4⟩ := v1
  obtain ⟨b1, b2, b3, b4⟩ := v2
  simp only at a1 a2 a3 a4 b1 b2 b3 b4
  by_contra hlt
  push_neg at hlt
  have s := month_sep y1 m2 m1 b1 hlt a2
  have l1 := dfc_d_linear y1 m1 d1
  have l2 := dfc_d_linear y1 m2 d2
  omega

theorem intStr_data_4 {Y : Int} (h1 : 1000 ≤ Y) (h2 : Y ≤ 9999) :
    (intStr Y).data = (natDigits Y.toNat).map digitChar := by
  rw [intStr_nonneg (by omega), natStr_data]

theorem digits4_len {n : Nat} (h1 : 1000 ≤ n) (h2 : n ≤ 9999) :
    ((natDigits n).map digitChar).length = 4 := by
  rw [natDigits_four h1 h2]
  rfl

/-- Lexicographic monotonicity of the week key over 4-digit ISO years. -/
theorem weekKey_le {c1 c2 : CivilDate} (v1 : ValidDate c1) (v2 : ValidDate c2)
    (hy1 : 1001 ≤ c1.year) (hy2 : c1.year ≤ 9998) (hy3 : 1001 ≤ c2.year) (hy4 : c2.year ≤ 9998)
    (h : daysFromCivil c1.year c1.month c1.day ≤ daysFromCivil c2.year c2.month c2.day) :
    jsLe (getWeekKey c1) (getWeekKey c2) = true := by
  obtain ⟨a1, a2, a3, a4⟩ := v1
  obtain ⟨b1, b2, b3, b4⟩ := v2
  have r1 := isoYear_range c1.year c1.month c1.day a1 a2 a3 a4
  have r2 := isoYear_range c2.year c2.month c2.day b1 b2 b3 b4
  have hYm := isoYear_mono h
  have w1 := weekNo_bounds (daysFromCivil c1.year c1.month c1.day)
  have w2 := weekNo_bounds (daysFromCivil c2.year c2.month c2.day)
  rw [jsLe, getWeekKey, getWeekKey]
  rw [String.data_append, String.data_append, String.data_append, String.data_append]
  rw [intStr_data_4 (by omega) (by omega), intStr_data_4 (by omega) (by omega)]
  rw [List.append_assoc, List.append_assoc]
  rcases eq_or_lt_of_le hYm with hEq | hLt
  · rw [hEq, lexLeCh_append_left]
    rw [lexLeCh_append_left]
    exact lexLe_pad2 (by omega) (by omega) (by omega) (by omega) (weekNo_mono h hEq)
  · exact lexLeCh_append_of_lt _ _ _ _
      (by rw [digits4_len (by omega) (by omega), digits4_len (by omega) (by omega)])
      (lexLt_digits4 (by omega) (by omega) (by omega) (by omega) (by omega))

/-- Lexicographic monotonicity of the month key over 4-digit years. -/
theorem monthKey_le {c1 c2 : CivilDate} (v1 : ValidDate c1) (v2 : ValidDate c2)
    (hy1 : 1000 ≤ c1.year) (hy2 : c1.year ≤ 9999) (hy3 : 1000 ≤ c2.year) (hy4 : c2.year ≤ 9999)
    (h : daysFromCivil c1.year c1.month c1.day ≤ daysFromCivil c2.year c2.month c2.day) :
    jsLe (getMonthKey c1) (getMonthKey c2) = true := by
  have hYm := year_le_of_le v1 v2 h
  obtain ⟨a1, a2, a3, a4⟩ := v1
  obtain ⟨b1, b2, b3, b4⟩ := v2
  rw [jsLe, getMonthKey, getMonthKey]
  rw [String.data_append, String.data_append, String.data_append, String.data_append]
  rw [intStr_data_4 (by omega) (by omega), intStr_data_4 (by omega) (by omega)]
  rw [List.append_assoc, List.append_assoc]
  rcases eq_or_lt_of_le hYm with hEq | hLt
  · rw [hEq, lexLeCh_append_left]
    have hmle : c1.month ≤ c2.month := month_le_of_le ⟨a1, a2, a3, a4⟩ ⟨b1, b2, b3, b4⟩ hEq h
    rw [lexLeCh_append_left]
    exact lexLe_pad2 (by omega) (by omega) (by omega) (by omega) hmle
  · exact lexLeCh_append_of_lt _ _ _ _
      (by rw [digits4_len (by omega) (by omega), digits4_len (by omega) (by omega)])
      (lexLt_digits4 (by omega) (by omega) (by omega) (by omega) (by omega))

/-- Lexicographic monotonicity of the year key over 4-digit years. -/
theorem yearKey_le {c1 c2 : CivilDate} (v1 : ValidDate c1) (v2 : ValidDate c2)
    (hy1 : 1000 ≤ c1.year) (hy2 : c1.year ≤ 9999) (hy3 : 1000 ≤ c2.year) (hy4 : c2.year ≤ 9999)
    (h : daysFromCivil c1.year c1.month c1.day ≤ daysFromCivil c2.year c2.month c2.day) :
    jsLe (getYearKey c1) (getYearKey c2) = true := by
  have hYm := year_le_of_le v1 v2 h
  rw [jsLe, getYearKey, getYearKey]
  rw [intStr_data_4 (by omega) (by omega), intStr_data_4 (by omega) (by omega)]
  exact lexLe_digits4 (by omega) (by omega) (by omega) (by omega) (by omega)

/-- C7 counterexample: the claim quantifies over every pair of valid calendar
dates, but for 0999-12-31 (a valid date, rendered year key `"999"`) and
1000-01-01 (year key `"1000"`) the earlier date has the lexicographically
larger year key, so the plain string sort would order these buckets
non-chronologically. -/
theorem claim_C7_counterexample :
    ValidDate ⟨999, 12, 31⟩ ∧ ValidDate ⟨1000, 1, 1⟩
      ∧ daysFromCivil 999 12 31 ≤ daysFromCivil 1000 1 1
      ∧ jsLe (getYearKey ⟨999, 12, 31⟩) (getYearKey ⟨1000, 1, 1⟩) = false
      ∧ jsLe (getMonthKey ⟨999, 12, 31⟩) (getMonthKey ⟨1000, 1, 1⟩) = false := by
  refine ⟨by decide, by decide, by decide, ?_, ?_⟩
  · decide
  · decide

/-- C7 (amended to four-digit years): for valid dates whose years lie in
`1001..9998` (so that civil and ISO years all have four digits), chronological
order implies lexicographic order of the week, month, and year keys; hence the
Aggregator's plain string sort of bucket keys lists buckets chronologically. -/
theorem claim_C7 (c1 c2 : CivilDate) (v1 : ValidDate c1) (v2 : ValidDate c2)
    (hy1 : 1001 ≤ c1.year) (hy2 : c1.year ≤ 9998) (hy3 : 1001 ≤ c2.year) (hy4 : c2.year ≤ 9998)
    (h : daysFromCivil c1.year c1.month c1.day ≤ daysFromCivil c2.year c2.month c2.day) :
    jsLe (getWeekKey c1) (getWeekKey c2) = true
      ∧ jsLe (getMonthKey c1) (getMonthKey c2) = true
      ∧ jsLe (getYearKey c1) (getYearKey c2) = true :=
  ⟨weekKey_le v1 v2 hy1 hy2 hy3 hy4 h,
   monthKey_le v1 v2 (by omega) (by omega) (by omega) (by omega) h,
   yearKey_le v1 v2 (by omega) (by omega) (by omega) (by omega) h⟩

/-- Witness for C7 at the concrete dates 2024-01-31 and 2024-02-01. -/
theorem claim_C7_witness :
    ValidDate ⟨2024, 1, 31⟩ ∧ ValidDate ⟨2024, 2, 1⟩
      ∧ daysFromCivil 2024 1 31 ≤ daysFromCivil 2024 2 1
      ∧ (jsLe (getWeekKey ⟨2024, 1, 31⟩) (getWeekKey ⟨2024, 2, 1⟩) = true
        ∧ jsLe (getMonthKey ⟨2024, 1, 31⟩) (getMonthKey ⟨2024, 2, 1⟩) = true
        ∧ jsLe (getYearKey ⟨2024, 1, 31⟩) (getYearKey ⟨2024, 2, 1⟩) = true) :=
  ⟨by decide, by decide, by decide,
   claim_C7 ⟨2024, 1, 31⟩ ⟨2024, 2, 1⟩ (by decide) (by decide) (by decide) (by decide)
     (by decide) (by decide) (by decide)⟩

/-- One day's work record (src/types.ts `Entry`): monetary, distance, and time
fields are modelled as exact rationals, the date as its stored string. -/
structure Entry where
  id : String
  date : String
  totalEarnings : ℚ
  kmDriven : ℚ
  hoursWorked : ℚ
  additionalCosts : ℚ
  deriving DecidableEq, Repr

/-- Model of `new Date(entry.date)` followed by the `isNaN(date.getTime())`
validity check, for the app's canonical `YYYY-MM-DD` date strings (the
calculator stores `new Date().toISOString().split('T')[0]`).  A string of any
other shape, or one with out-of-range fields, yields an invalid date. -/
def parseDate (s : String) : Option CivilDate :=
  match s.data with
  | [y1, y2, y3, y4, s1, m1, m2, s2, d1, d2] =>
    if s1 = '-' ∧ s2 = '-'
        ∧ y1.isDigit ∧ y2.isDigit ∧ y3.isDigit ∧ y4.isDigit
        ∧ m1.isDigit ∧ m2.isDigit ∧ d1.isDigit ∧ d2.isDigit then
      let y : Int := ((y1.toNat - 48) * 1000 + (y2.toNat - 48) * 100
        + (y3.toNat - 48) * 10 + (y4.toNat - 48) : Nat)
      let mo : Int := ((m1.toNat - 48) * 10 + (m2.toNat - 48) : Nat)
      let dy : Int := ((d1.toNat - 48) * 10 + (d2.toNat - 48) : Nat)
      if 1 ≤ mo ∧ mo ≤ 12 ∧ 1 ≤ dy ∧ dy ≤ daysInMonth y mo then some ⟨y, mo, dy⟩ else none
    else none
  | _ => none

example : parseDate "2024-01-01" = some ⟨2024, 1, 1⟩ := by decide
example : parseDate "2018-12-31" = some ⟨2018, 12, 31⟩ := by decide
example : parseDate "not-a-date" = none := by decide
example : parseDate "2024-02-30" = none := by decide
example : parseDate "" = none := by decide

/-- Net profit as derived in `SummaryModal` (HistoryView.tsx lines 50–51):
`carCost = kmDriven * vehicleCostPerKm; netProfit = totalEarnings - carCost -
additionalCosts`. -/
def summaryModal_carCost (e : Entry) (cost : ℚ) : ℚ := e.kmDriven * cost

def summaryModal_netProfit (e : Entry) (cost : ℚ) : ℚ :=
  e.totalEarnings - summaryModal_carCost e cost - e.additionalCosts

/-- `profitPerKm` as derived in `SummaryModal` (HistoryView.tsx line 52):
`entry.kmDriven > 0 ? netProfit / entry.kmDriven : 0`. -/
def summaryModal_profitPerKm (e : Entry) (cost : ℚ) : ℚ :=
  if e.kmDriven > 0 then summaryModal_netProfit e cost / e.kmDriven else 0

/-- `profitPerHour` as derived in `SummaryModal` (HistoryView.tsx line 53):
`entry.hoursWorked > 0 ? netProfit / entry.hoursWorked : null`. -/
def summaryModal_profitPerHour (e : Entry) (cost : ℚ) : Option ℚ :=
  if e.hoursWorked > 0 then some (summaryModal_netProfit e cost / e.hoursWorked) else none

/-- `grossProfitPerKm` as derived in `SummaryModal` (HistoryView.tsx line 54). -/
def summaryModal_grossProfitPerKm (e : Entry) : ℚ :=
  if e.kmDriven > 0 then e.totalEarnings / e.kmDriven else 0

/-- Net profit as derived per entry in the recent-history chart
(HistoryView.tsx lines 176–177). -/
def historyChart_netProfit (e : Entry) (cost : ℚ) : ℚ :=
  e.totalEarnings - e.kmDriven * cost - e.additionalCosts

/-- Net profit as derived per entry in `periodData` of the general report
(GeneralReport.tsx line 127), feeding grouping and best-day selection. -/
def generalReport_netProfit (e : Entry) (cost : ℚ) : ℚ :=
  e.totalEarnings - e.kmDriven * cost - e.additionalCosts

/-- Net profit as derived per entry in the day-of-week analysis
(DayOfWeekAnalysis, line 110). -/
def dayOfWeek_netProfit (e : Entry) (cost : ℚ) : ℚ :=
  e.totalEarnings - e.kmDriven * cost - e.additionalCosts

/-- Net profit as derived per CSV row in `handleExport` (PremiumView,
lines 131–132). -/
def export_carCost (e : Entry) (cost : ℚ) : ℚ := e.kmDriven * cost

def export_netProfit (e : Entry) (cost : ℚ) : ℚ :=
  e.totalEarnings - export_carCost e cost - e.additionalCosts

/-- `profitPerKm` of a CSV row (PremiumView line 133):
`e.kmDriven > 0 ? netProfit / e.kmDriven : 0`. -/
def export_profitPerKm (e : Entry) (cost : ℚ) : ℚ :=
  if e.kmDriven > 0 then export_netProfit e cost / e.kmDriven else 0

/-- `profitPerHour` of a CSV row (PremiumView line 134):
`e.hoursWorked > 0 ? netProfit / e.hoursWorked : 0` — the number `0`, unlike
the `null` used by `SummaryModal`. -/
def export_profitPerHour (e : Entry) (cost : ℚ) : ℚ :=
  if e.hoursWorked > 0 then export_netProfit e cost / e.hoursWorked else 0

/-- Net profit as derived per entry in `PerformanceOptimizer`'s `periodData`. -/
def perfOptimizer_netProfit (e : Entry) (cost : ℚ) : ℚ :=
  e.totalEarnings - e.kmDriven * cost - e.additionalCosts

/-- Net profit as derived per entry in the AI data digest
(PremiumView line 73). -/
def aiDigest_netProfit (e : Entry) (cost : ℚ) : ℚ :=
  e.totalEarnings - e.kmDriven * cost - e.additionalCosts

/-- C1: every place that derives a net profit — the summary modal, the
recent-history chart, the general report's grouping/best-day fold, the
day-of-week analysis, the CSV export, the performance optimizer, and the AI
digest — computes exactly
`totalEarnings - kmDriven * vehicleCostPerKm - additionalCosts`
(exact rational arithmetic models the float computation within epsilon). -/
theorem claim_C1 (e : Entry) (cost : ℚ) :
    summaryModal_netProfit e cost
        = e.totalEarnings - e.kmDriven * cost - e.additionalCosts
      ∧ historyChart_netProfit e cost
        = e.totalEarnings - e.kmDriven * cost - e.additionalCosts
      ∧ generalReport_netProfit e cost
        = e.totalEarnings - e.kmDriven * cost - e.additionalCosts
      ∧ dayOfWeek_netProfit e cost
        = e.totalEarnings - e.kmDriven * cost - e.additionalCosts
      ∧ export_netProfit e cost
        = e.totalEarnings - e.kmDriven * cost - e.additionalCosts
      ∧ perfOptimizer_netProfit e cost
        = e.totalEarnings - e.kmDriven * cost - e.additionalCosts
      ∧ aiDigest_netProfit e cost
        = e.totalEarnings - e.kmDriven * cost - e.additionalCosts :=
  ⟨rfl, rfl, rfl, rfl, rfl, rfl, rfl⟩

/-- C3 counterexample: for the concrete entry with `kmDriven = 0` (and
`hoursWorked = 0`), the summary modal's `profitPerKm` is the plain number `0`
(`kmDriven > 0 ? netProfit / kmDriven : 0`), not an "unavailable" marker, and
the CSV export's `profitPerHour` is likewise the number `0`, not absent. -/
theorem claim_C3_counterexample :
    summaryModal_profitPerKm ⟨"e0", "2024-01-01", 10, 0, 0, 0⟩ 1 = 0
      ∧ export_profitPerKm ⟨"e0", "2024-01-01", 10, 0, 0, 0⟩ 1 = 0
      ∧ export_profitPerHour ⟨"e0", "2024-01-01", 10, 0, 0, 0⟩ 1 = 0 := by
  refine ⟨?_, ?_, ?_⟩ <;> decide

/-- C3 (amended): for an entry with `kmDriven = 0` — whatever its hours — the
per-entry `profitPerKm` is the number `0` in both the summary modal and the
CSV export (the guarded division never divides by zero, so no NaN or Infinity
arises); independently, for an entry with `hoursWorked = 0` — whatever its
kilometres — `profitPerHour` is `null` (absent) in the summary modal but the
number `0` in the CSV export. -/
theorem claim_C3 (e : Entry) (cost : ℚ) :
    (e.kmDriven = 0 →
      summaryModal_profitPerKm e cost = 0 ∧ export_profitPerKm e cost = 0)
      ∧ (e.hoursWorked = 0 →
        summaryModal_profitPerHour e cost = none ∧ export_profitPerHour e cost = 0) := by
  constructor
  · intro hk
    rw [summaryModal_profitPerKm, export_profitPerKm, hk]
    norm_num
  · intro hh
    rw [summaryModal_profitPerHour, export_profitPerHour, hh]
    norm_num

/-- Witness for C3 with the two guards exercised independently: a zero-km
entry with positive hours, and a zero-hours entry with positive kilometres. -/
theorem claim_C3_witness :
    ((⟨"e1", "2024-01-02", 25, 0, 5, 3⟩ : Entry).kmDriven = 0
      ∧ summaryModal_profitPerKm ⟨"e1", "2024-01-02", 25, 0, 5, 3⟩ 2 = 0
      ∧ export_profitPerKm ⟨"e1", "2024-01-02", 25, 0, 5, 3⟩ 2 = 0)
      ∧ ((⟨"e2", "2024-01-03", 25, 3, 0, 3⟩ : Entry).hoursWorked = 0
        ∧ summaryModal_profitPerHour ⟨"e2", "2024-01-03", 25, 3, 0, 3⟩ 2 = none
        ∧ export_profitPerHour ⟨"e2", "2024-01-03", 25, 3, 0, 3⟩ 2 = 0) :=
  ⟨⟨rfl, (claim_C3 ⟨"e1", "2024-01-02", 25, 0, 5, 3⟩ 2).1 rfl⟩,
   ⟨rfl, (claim_C3 ⟨"e2", "2024-01-03", 25, 3, 0, 3⟩ 2).2 rfl⟩⟩

/-- The reporting period selected in the general report. -/
inductive Period where
  | week
  | month
  | year
  deriving DecidableEq, Repr

/-- `getGroupKey` (GeneralReport.tsx line 118). -/
def getGroupKey : Period → CivilDate → String
  | .week, c => getWeekKey c
  | .month, c => getMonthKey c
  | .year, c => getYearKey c

/-- Value stored per bucket by the aggregator `Map`:
`{ totalProfit: number; days: Set<string> }`. -/
structure Bucket where
  totalProfit : ℚ
  days : List String
  deriving DecidableEq, Repr

/-- Model of `Set.add` on the insertion-ordered `days` set. -/
def daysInsert (l : List String) (s : String) : List String :=
  if s ∈ l then l else l ++ [s]

/-- One `aggregator.set(key, current)` step: fetch the bucket (or a fresh one),
add the entry's net profit, and record its date; JavaScript `Map` keeps the
insertion position of an existing key and appends a new one. -/
def aggUpsert (m : List (String × Bucket)) (k : String) (p : ℚ) (day : String) :
    List (String × Bucket) :=
  match m with
  | [] => [(k, ⟨p, [day]⟩)]
  | (k', b) :: rest =>
    if k' = k then (k', ⟨b.totalProfit + p, daysInsert b.days day⟩) :: rest
    else (k', b) :: aggUpsert rest k p day

/-- One step of the grouping fold of `periodData` (GeneralReport.tsx lines
122–137): an entry with an unparseable date is skipped, otherwise its net
profit and date are folded into the bucket of its group key. -/
def aggStep (p : Period) (cost : ℚ) (m : List (String × Bucket)) (e : Entry) :
    List (String × Bucket) :=
  match parseDate e.date with
  | none => m
  | some c => aggUpsert m (getGroupKey p c) (generalReport_netProfit e cost) e.date

/-- The grouping fold of `periodData` (GeneralReport.tsx lines 122–137). -/
def aggregate (p : Period) (cost : ℚ) (entries : List Entry) : List (String × Bucket) :=
  entries.foldl (aggStep p cost) []

/-- Lookup in the aggregator map. -/
def lookupAgg : List (String × Bucket) → String → Option Bucket
  | [], _ => none
  | (k', b) :: rest, k => if k' = k then some b else lookupAgg rest k

/-- One step of the `overallBestDay` fold (GeneralReport.tsx lines 122–131):
an entry with an unparseable date is skipped; a date-valid entry replaces the
best so far when its net profit is strictly greater
(`if (netProfit > overallBestDay.profit)`). -/
def bestStep (cost : ℚ) (best : Option (ℚ × String)) (e : Entry) : Option (ℚ × String) :=
  match parseDate e.date with
  | none => best
  | some _ =>
    match best with
    | none => some (generalReport_netProfit e cost, e.date)
    | some b =>
      if generalReport_netProfit e cost > b.1 then some (generalReport_netProfit e cost, e.date)
      else some b

/-- The `overallBestDay` fold of `periodData` (GeneralReport.tsx lines
120–131), starting from `{profit: -Infinity, date: ''}` (modelled as `none`,
which every finite profit beats). -/
def bestDayFold (cost : ℚ) (entries : List Entry) : Option (ℚ × String) :=
  entries.foldl (bestStep cost) none

/-- `totalProfitAllTime` (GeneralReport.tsx line 151): sum of the bucket
totals. -/
def totalProfitAllTime (p : Period) (cost : ℚ) (entries : List Entry) : ℚ :=
  ((aggregate p cost entries).map (fun kv => kv.2.totalProfit)).sum

/-- `totalDays` (GeneralReport.tsx line 152): the length of the raw entry
list, including entries whose dates do not parse. -/
def daysWorked (entries : List Entry) : Nat := entries.length

/-- `avgProfitPerDay` (GeneralReport.tsx line 158). -/
def avgProfitPerDay (p : Period) (cost : ℚ) (entries : List Entry) : ℚ :=
  if 0 < entries.length then totalProfitAllTime p cost entries / entries.length else 0

/-- An entry whose date parses. -/
def dateValid (e : Entry) : Bool := (parseDate e.date).isSome

theorem aggregate_filter (p : Period) (cost : ℚ) (entries : List Entry) :
    aggregate p cost entries = aggregate p cost (entries.filter dateValid) := by
  rw [aggregate, aggregate]
  generalize ([] : List (String × Bucket)) = m
  induction entries generalizing m with
  | nil => rfl
  | cons e rest ih =>
    rw [List.filter_cons]
    rcases he : parseDate e.date with _ | c
    · have hv : dateValid e = false := by rw [dateValid, he]; rfl
      have hstep : aggStep p cost m e = m := by simp only [aggStep, he]
      simp only [List.foldl_cons, hstep, hv, Bool.false_eq_true, if_false]
      exact ih m
    · have hv : dateValid e = true := by rw [dateValid, he]; rfl
      simp only [List.foldl_cons, hv, if_true, List.foldl_cons]
      exact ih _

theorem bestDayFold_filter (cost : ℚ) (entries : List Entry) :
    bestDayFold cost entries = bestDayFold cost (entries.filter dateValid) := by
  rw [bestDayFold, bestDayFold]
  generalize (none : Option (ℚ × String)) = m
  induction entries generalizing m with
  | nil => rfl
  | cons e rest ih =>
    rw [List.filter_cons]
    rcases he : parseDate e.date with _ | c
    · have hv : dateValid e = false := by rw [dateValid, he]; rfl
      have hstep : bestStep cost m e = m := by simp only [bestStep, he]
      simp only [List.foldl_cons, hstep, hv, Bool.false_eq_true, if_false]
      exact ih m
    · have hv : dateValid e = true := by rw [dateValid, he]; rfl
      simp only [List.foldl_cons, hv, if_true, List.foldl_cons]
      exact ih _

/-- C4 counterexample: with one valid entry (net profit 10) and one entry
dated `"not-a-date"`, the aggregation and best-day selection ignore the
invalid entry and raise no error, but — contrary to the claim — the period
statistics count it: `daysWorked` is 2 and the average divides by 2. -/
theorem claim_C4_counterexample :
    aggregate .month 0 [⟨"1", "2024-01-01", 10, 0, 0, 0⟩, ⟨"2", "not-a-date", 100, 0, 0, 0⟩]
        = [("2024-01", ⟨10, ["2024-01-01"]⟩)]
      ∧ bestDayFold 0 [⟨"1", "2024-01-01", 10, 0, 0, 0⟩, ⟨"2", "not-a-date", 100, 0, 0, 0⟩]
        = some (10, "2024-01-01")
      ∧ daysWorked [⟨"1", "2024-01-01", 10, 0, 0, 0⟩, ⟨"2", "not-a-date", 100, 0, 0, 0⟩] = 2
      ∧ avgProfitPerDay .month 0
          [⟨"1", "2024-01-01", 10, 0, 0, 0⟩, ⟨"2", "not-a-date", 100, 0, 0, 0⟩] = 5 := by
  have h1 : parseDate "2024-01-01" = some ⟨2024, 1, 1⟩ := by decide
  have h2 : parseDate "not-a-date" = none := by decide
  have h3 : getGroupKey .month ⟨2024, 1, 1⟩ = "2024-01" := by decide
  refine ⟨?_, ?_, ?_, ?_⟩
  · simp [aggregate, aggStep, h1, h2, h3, aggUpsert, generalReport_netProfit]
  · simp [bestDayFold, bestStep, h1, h2, generalReport_netProfit]
  · rfl
  · simp [avgProfitPerDay, totalProfitAllTime, aggregate, aggStep, h1, h2, h3, aggUpsert,
      generalReport_netProfit]
    norm_num

/-- C4 (amended): an entry with an unparseable date contributes to no bucket
total, is never selected as best day, and contributes nothing to the total
profit — aggregation over it is the same as over the date-valid sublist, and
no computation fails — but it IS counted in the period statistics' entry
count (`daysWorked = entries.length`) and hence in the average's
denominator. -/
theorem claim_C4 (p : Period) (cost : ℚ) (entries : List Entry) :
    aggregate p cost entries = aggregate p cost (entries.filter dateValid)
      ∧ bestDayFold cost entries = bestDayFold cost (entries.filter dateValid)
      ∧ totalProfitAllTime p cost entries
        = totalProfitAllTime p cost (entries.filter dateValid)
      ∧ daysWorked entries = entries.length
      ∧ avgProfitPerDay p cost entries
        = (if 0 < entries.length
            then totalProfitAllTime p cost (entries.filter dateValid) / entries.length
            else 0) :=
  ⟨aggregate_filter p cost entries,
   bestDayFold_filter cost entries,
   by rw [totalProfitAllTime, totalProfitAllTime, aggregate_filter],
   rfl,
   by rw [avgProfitPerDay, totalProfitAllTime, aggregate_filter, totalProfitAllTime]⟩

/-- The per-entry `(netProfit, date)` stream that the `periodData` fold sees,
restricted to date-valid entries, in input order. -/
def validProfits (cost : ℚ) (entries : List Entry) : List (ℚ × String) :=
  entries.filterMap (fun e =>
    match parseDate e.date with
    | none => none
    | some _ => some (generalReport_netProfit e cost, e.date))

/-- One step of the best-day fold on the valid stream. -/
def bestMerge (best : Option (ℚ × String)) (x : ℚ × String) : Option (ℚ × String) :=
  match best with
  | none => some x
  | some b => if x.1 > b.1 then some x else some b

/-- The earliest element of maximal first component. -/
def firstMax : List (ℚ × String) → Option (ℚ × String)
  | [] => none
  | x :: xs =>
    match firstMax xs with
    | none => some x
    | some y => if y.1 ≤ x.1 then some x else some y

theorem bestFold_aux (cost : ℚ) (entries : List Entry) (m : Option (ℚ × String)) :
    entries.foldl (bestStep cost) m = (validProfits cost entries).foldl bestMerge m := by
  induction entries generalizing m with
  | nil => rfl
  | cons e rest ih =>
    rw [validProfits, List.filterMap_cons]
    rcases he : parseDate e.date with _ | c
    · have hstep : bestStep cost m e = m := by simp only [bestStep, he]
      simp only [List.foldl_cons, hstep, he]
      rw [ih m, validProfits]
    · have hstep : bestStep cost m e = bestMerge m (generalReport_netProfit e cost, e.date) := by
        simp only [bestStep, he, bestMerge]
      simp only [List.foldl_cons, hstep, he]
      rw [ih _, validProfits]

theorem bestDayFold_eq_merge (cost : ℚ) (entries : List Entry) :
    bestDayFold cost entries = (validProfits cost entries).foldl bestMerge none := by
  rw [bestDayFold, bestFold_aux]

theorem foldl_merge_some (xs : List (ℚ × String)) (b : ℚ × String) :
    xs.foldl bestMerge (some b)
      = (match firstMax xs with
        | none => some b
        | some y => if y.1 > b.1 then some y else some b) := by
  induction xs generalizing b with
  | nil => rfl
  | cons x xs ih =>
    show xs.foldl bestMerge (bestMerge (some b) x) = _
    simp only [bestMerge, firstMax]
    by_cases h : x.1 > b.1
    · rw [if_pos h, ih x]
      rcases hf : firstMax xs with _ | y
      · simp only [if_pos h]
      · dsimp only
        by_cases hxy : y.1 ≤ x.1
        · rw [if_pos hxy, if_neg (by linarith : ¬ y.1 > x.1)]
          dsimp only
          rw [if_pos h]
        · rw [if_neg hxy, if_pos (by linarith : y.1 > x.1)]
          dsimp only
          rw [if_pos (by linarith : y.1 > b.1)]
    · rw [if_neg h, ih b]
      rcases hf : firstMax xs with _ | y
      · simp only [if_neg h]
      · dsimp only
        by_cases hxy : y.1 ≤ x.1
        · rw [if_pos hxy]
          dsimp only
          rw [if_neg h, if_neg (by linarith : ¬ y.1 > b.1)]
        · rw [if_neg hxy]

theorem foldl_merge_none (xs : List (ℚ × String)) :
    xs.foldl bestMerge none = firstMax xs := by
  cases xs with
  | nil => rfl
  | cons x xs =>
    show xs.foldl bestMerge (some x) = _
    rw [foldl_merge_some]
    simp only [firstMax]
    rcases hf : firstMax xs with _ | y
    · rfl
    · dsimp only
      by_cases hxy : y.1 ≤ x.1
      · rw [if_pos hxy, if_neg (by linarith : ¬ y.1 > x.1)]
      · rw [if_neg hxy, if_pos (by linarith : y.1 > x.1)]

theorem firstMax_eq_none {l : List (ℚ × String)} (h : firstMax l = none) : l = [] := by
  cases l with
  | nil => rfl
  | cons a as =>
    exfalso
    simp only [firstMax] at h
    rcases hu : firstMax as with _ | u
    · rw [hu] at h
      exact Option.noConfusion h
    · rw [hu] at h
      dsimp only at h
      by_cases hc : u.1 ≤ a.1
      · rw [if_pos hc] at h
        exact Option.noConfusion h
      · rw [if_neg hc] at h
        exact Option.noConfusion h

theorem firstMax_spec (l : List (ℚ × String)) :
    ∀ y, firstMax l = some y → y ∈ l ∧ ∀ z ∈ l, z.1 ≤ y.1 := by
  induction l with
  | nil => intro y hy; cases hy
  | cons x xs ih =>
    intro y hy
    simp only [firstMax] at hy
    rcases hf : firstMax xs with _ | w
    · rw [hf] at hy
      dsimp only at hy
      cases hy
      refine ⟨List.mem_cons_self x xs, ?_⟩
      intro z hz
      rcases List.mem_cons.mp hz with h | h
      · rw [h]
      · rw [firstMax_eq_none hf] at h
        cases h
    · rw [hf] at hy
      dsimp only at hy
      obtain ⟨hw1, hw2⟩ := ih w hf
      by_cases hc : w.1 ≤ x.1
      · rw [if_pos hc] at hy
        cases hy
        refine ⟨List.mem_cons_self x xs, ?_⟩
        intro z hz
        rcases List.mem_cons.mp hz with h | h
        · rw [h]
        · exact le_trans (hw2 z h) hc
      · rw [if_neg hc] at hy
        cases hy
        refine ⟨List.mem_cons_of_mem x hw1, ?_⟩
        intro z hz
        rcases List.mem_cons.mp hz with h | h
        · rw [h]
          linarith [not_le.mp hc]
        · exact hw2 z h

theorem firstMax_of_decomp (pre post : List (ℚ × String)) (x : ℚ × String)
    (hpre : ∀ y ∈ pre, y.1 < x.1) (hpost : ∀ z ∈ post, z.1 ≤ x.1) :
    firstMax (pre ++ x :: post) = some x := by
  induction pre with
  | nil =>
    rw [List.nil_append]
    simp only [firstMax]
    rcases hf : firstMax post with _ | y
    · rfl
    · dsimp only
      rw [if_pos (hpost y (firstMax_spec post y hf).1)]
  | cons p pre ih =>
    rw [List.cons_append]
    simp only [firstMax]
    rw [ih (fun y hy => hpre y (List.mem_cons_of_mem p hy))]
    dsimp only
    rw [if_neg (not_le.mpr (hpre p (List.mem_cons_self p pre)))]

/-- C5: the best-day selection is the first date-valid entry attaining the
maximal net profit: whenever the valid `(netProfit, date)` stream decomposes
as `pre ++ x :: post` with every element of `pre` strictly below `x` and
every element of `post` at most `x` (so `x` is the first maximum, later ties
included), the fold returns exactly `x`; this holds for every input order
preserving the relative order of the tied entries, since the decomposition is
arbitrary. -/
theorem claim_C5 (cost : ℚ) (entries : List Entry) (pre post : List (ℚ × String))
    (x : ℚ × String) (hdec : validProfits cost entries = pre ++ x :: post)
    (hpre : ∀ y ∈ pre, y.1 < x.1) (hpost : ∀ z ∈ post, z.1 ≤ x.1) :
    bestDayFold cost entries = some x := by
  rw [bestDayFold_eq_merge, hdec, foldl_merge_none]
  exact firstMax_of_decomp pre post x hpre hpost

/-- Witness for C5: two entries tied at net profit 10; the first one
(2024-01-01) wins the tie. -/
theorem claim_C5_witness :
    validProfits 0 [⟨"1", "2024-01-01", 10, 0, 0, 0⟩, ⟨"2", "2024-01-02", 10, 0, 0, 0⟩]
        = [] ++ ((10 : ℚ), "2024-01-01") :: [((10 : ℚ), "2024-01-02")]
      ∧ bestDayFold 0 [⟨"1", "2024-01-01", 10, 0, 0, 0⟩, ⟨"2", "2024-01-02", 10, 0, 0, 0⟩]
        = some ((10 : ℚ), "2024-01-01") := by
  have h1 : parseDate "2024-01-01" = some ⟨2024, 1, 1⟩ := by decide
  have h2 : parseDate "2024-01-02" = some ⟨2024, 1, 2⟩ := by decide
  have hdec : validProfits 0
      [⟨"1", "2024-01-01", 10, 0, 0, 0⟩, ⟨"2", "2024-01-02", 10, 0, 0, 0⟩]
      = [] ++ ((10 : ℚ), "2024-01-01") :: [((10 : ℚ), "2024-01-02")] := by
    simp [validProfits, h1, h2, generalReport_netProfit]
  refine ⟨hdec, ?_⟩
  refine claim_C5 0 _ [] [((10 : ℚ), "2024-01-02")] ((10 : ℚ), "2024-01-01") hdec ?_ ?_
  · intro y hy
    cases hy
  · intro z hz
    rcases List.mem_singleton.mp hz with h
    rw [h]

/-- The stream of net profits contributed to bucket `k` by a list of entries,
in input order. -/
def keyContribs (p : Period) (cost : ℚ) (k : String) (entries : List Entry) : List ℚ :=
  entries.filterMap (fun e =>
    match parseDate e.date with
    | none => none
    | some c => if getGroupKey p c = k then some (generalReport_netProfit e cost) else none)

theorem lookup_aggUpsert_self (m : List (String × Bucket)) (k : String) (q : ℚ) (day : String) :
    lookupAgg (aggUpsert m k q day) k
      = some (match lookupAgg m k with
        | none => ⟨q, [day]⟩
        | some b => ⟨b.totalProfit + q, daysInsert b.days day⟩) := by
  induction m with
  | nil => simp [aggUpsert, lookupAgg]
  | cons kv rest ih =>
    obtain ⟨k0, b⟩ := kv
    by_cases h : k0 = k
    · simp [aggUpsert, lookupAgg, h]
    · simp only [aggUpsert, lookupAgg, if_neg h]
      exact ih

theorem lookup_aggUpsert_ne (m : List (String × Bucket)) (k q' : String) (q : ℚ) (day : String)
    (h : q' ≠ k) : lookupAgg (aggUpsert m k q day) q' = lookupAgg m q' := by
  induction m with
  | nil =>
    simp only [aggUpsert, lookupAgg]
    rw [if_neg (fun hq : k = q' => h hq.symm)]
  | cons kv rest ih =>
    obtain ⟨k0, b⟩ := kv
    by_cases hk : k0 = k
    · simp only [aggUpsert, if_pos hk, lookupAgg]
      subst hk
      rw [if_neg (fun hq : k0 = q' => h hq.symm), if_neg (fun hq : k0 = q' => h hq.symm)]
    · simp only [aggUpsert, if_neg hk, lookupAgg]
      by_cases hq : k0 = q'
      · rw [if_pos hq, if_pos hq]
      · rw [if_neg hq, if_neg hq, ih]

theorem agg_lookup_aux (p : Period) (cost : ℚ) (k : String) (entries : List Entry)
    (m : List (String × Bucket)) :
    (lookupAgg (entries.foldl (aggStep p cost) m) k).map Bucket.totalProfit
      = (match (lookupAgg m k).map Bucket.totalProfit with
        | none =>
          if keyContribs p cost k entries = [] then none
          else some (keyContribs p cost k entries).sum
        | some v => some (v + (keyContribs p cost k entries).sum)) := by
  induction entries generalizing m with
  | nil =>
    rcases hm : lookupAgg m k with _ | b
    · rw [List.foldl_nil, hm]
      rfl
    · rw [List.foldl_nil, hm]
      show some b.totalProfit = some (b.totalProfit + ([] : List ℚ).sum)
      rw [List.sum_nil, add_zero]
  | cons e rest ih =>
    rw [keyContribs, List.filterMap_cons]
    rcases he : parseDate e.date with _ | c
    · have hstep : aggStep p cost m e = m := by simp only [aggStep, he]
      simp only [List.foldl_cons, hstep, he]
      rw [ih m, keyContribs]
    · have hstep : aggStep p cost m e
          = aggUpsert m (getGroupKey p c) (generalReport_netProfit e cost) e.date := by
        simp only [aggStep, he]
      simp only [List.foldl_cons, hstep, he]
      by_cases hk : getGroupKey p c = k
      · rw [if_pos hk, ih _, keyContribs]
        subst hk
        rw [lookup_aggUpsert_self]
        rcases lookupAgg m (getGroupKey p c) with _ | b
        · dsimp only [Option.map]
          rcases hrest : rest.filterMap (fun e =>
              match parseDate e.date with
              | none => none
              | some c2 =>
                if getGroupKey p c2 = getGroupKey p c
                then some (generalReport_netProfit e cost) else none) with _ | ⟨q, qs⟩
          · simp
          · simp [List.sum_cons]
        · dsimp only [Option.map]
          rw [List.sum_cons]
          ring_nf
      · rw [if_neg hk, ih _, keyContribs, lookup_aggUpsert_ne _ _ _ _ _ (fun hk2 => hk hk2.symm)]

theorem agg_lookup (p : Period) (cost : ℚ) (k : String) (entries : List Entry) :
    (lookupAgg (aggregate p cost entries) k).map Bucket.totalProfit
      = if keyContribs p cost k entries = [] then none
        else some (keyContribs p cost k entries).sum := by
  rw [aggregate, agg_lookup_aux]
  rfl

/-- C6: grouping is order-independent: for every permutation of the entry
list, every bucket key receives the same total (exact rational arithmetic
models the floating-point tolerance), and in particular the two aggregations
have the same set of bucket keys (a key maps to `some` total in one iff it
does in the other). -/
theorem claim_C6 (p : Period) (cost : ℚ) (l l' : List Entry) (hperm : l.Perm l') :
    ∀ k, (lookupAgg (aggregate p cost l) k).map Bucket.totalProfit
      = (lookupAgg (aggregate p cost l') k).map Bucket.totalProfit := by
  intro k
  rw [agg_lookup, agg_lookup]
  have hp : (keyContribs p cost k l).Perm (keyContribs p cost k l') :=
    hperm.filterMap _
  have hnil : keyContribs p cost k l = [] ↔ keyContribs p cost k l' = [] := by
    constructor
    · intro h
      exact (h ▸ hp).symm.eq_nil
    · intro h
      exact (h ▸ hp).eq_nil
  rw [if_congr hnil rfl (by rw [hp.sum_eq])]

/-- Witness for C6: swapping two same-month entries leaves the January 2024
bucket total unchanged. -/
theorem claim_C6_witness :
    ([⟨"1", "2024-01-01", 10, 0, 0, 0⟩, ⟨"2", "2024-01-02", 5, 0, 0, 0⟩] : List Entry).Perm
        [⟨"2", "2024-01-02", 5, 0, 0, 0⟩, ⟨"1", "2024-01-01", 10, 0, 0, 0⟩]
      ∧ (lookupAgg (aggregate .month 0
            [⟨"1", "2024-01-01", 10, 0, 0, 0⟩, ⟨"2", "2024-01-02", 5, 0, 0, 0⟩])
          "2024-01").map Bucket.totalProfit
        = (lookupAgg (aggregate .month 0
            [⟨"2", "2024-01-02", 5, 0, 0, 0⟩, ⟨"1", "2024-01-01", 10, 0, 0, 0⟩])
          "2024-01").map Bucket.totalProfit :=
  ⟨List.Perm.swap _ _ _,
   claim_C6 .month 0 _ _ (List.Perm.swap _ _ _) "2024-01"⟩

/-- Per-day accumulator of the day-of-week analysis (DayOfWeekAnalysis line
102): `{ totalProfit, totalEarnings, totalHours, totalKm, count }`. -/
structure DayAcc where
  totalProfit : ℚ
  totalEarnings : ℚ
  totalHours : ℚ
  totalKm : ℚ
  count : Nat
  deriving DecidableEq, Repr

/-- `date.getDay()` of a parsed entry date: `0 = Sunday .. 6 = Saturday`. -/
def dowIndex (c : CivilDate) : Nat := (dowOfDays (daysFromCivil c.year c.month c.day)).toNat

/-- One step of the day-of-week fold (DayOfWeekAnalysis lines 104–117): an
entry is skipped when its date does not parse or `hoursWorked <= 0`
(`if (isNaN(date.getTime()) || entry.hoursWorked <= 0) return`); otherwise its
figures accumulate into the bucket `days[date.getDay()]`. -/
def dowStep (cost : ℚ) (days : List DayAcc) (e : Entry) : List DayAcc :=
  match parseDate e.date with
  | none => days
  | some c =>
    if e.hoursWorked ≤ 0 then days
    else
      let i := dowIndex c
      let day := days.getD i ⟨0, 0, 0, 0, 0⟩
      days.set i ⟨day.totalProfit + dayOfWeek_netProfit e cost,
        day.totalEarnings + e.totalEarnings, day.totalHours + e.hoursWorked,
        day.totalKm + e.kmDriven, day.count + 1⟩

/-- The day-of-week accumulation over `Array(7).fill(...)` (DayOfWeekAnalysis
lines 102–117). -/
def dowFold (cost : ℚ) (entries : List Entry) : List DayAcc :=
  entries.foldl (dowStep cost) (List.replicate 7 ⟨0, 0, 0, 0, 0⟩)

/-- The three chart metrics of a bucket (DayOfWeekAnalysis lines 120–125):
`count > 0 ? totalProfit / totalHours : 0`, likewise for earnings per hour
and average km. -/
def dowRates (day : DayAcc) : ℚ × ℚ × ℚ :=
  (if day.count > 0 then day.totalProfit / day.totalHours else 0,
   if day.count > 0 then day.totalEarnings / day.totalHours else 0,
   if day.count > 0 then day.totalKm / (day.count : ℚ) else 0)

/-- `chartData` of the day-of-week analysis (the display name column is
presentation and not modelled). -/
def dowChart (cost : ℚ) (entries : List Entry) : List (ℚ × ℚ × ℚ) :=
  (dowFold cost entries).map dowRates

/-- An entry that the day-of-week analysis counts: parseable date and
positive hours. -/
def dowQualifies (e : Entry) : Bool :=
  (parseDate e.date).isSome && decide (0 < e.hoursWorked)

theorem dowStep_length (cost : ℚ) (days : List DayAcc) (e : Entry) :
    (dowStep cost days e).length = days.length := by
  rw [dowStep]
  rcases parseDate e.date with _ | c
  · rfl
  · dsimp only
    split
    · rfl
    · rw [List.length_set]

theorem dowFold_length (cost : ℚ) (entries : List Entry) :
    (dowFold cost entries).length = 7 := by
  rw [dowFold]
  have : ∀ (l : List Entry) (m : List DayAcc), (l.foldl (dowStep cost) m).length = m.length := by
    intro l
    induction l with
    | nil => intro m; rfl
    | cons e rest ih =>
      intro m
      rw [List.foldl_cons, ih, dowStep_length]
  rw [this]
  rfl

theorem dowFold_filter (cost : ℚ) (entries : List Entry) :
    dowFold cost entries = dowFold cost (entries.filter dowQualifies) := by
  rw [dowFold, dowFold]
  generalize List.replicate 7 (⟨0, 0, 0, 0, 0⟩ : DayAcc) = m
  induction entries generalizing m with
  | nil => rfl
  | cons e rest ih =>
    rw [List.filter_cons]
    rcases he : parseDate e.date with _ | c
    · have hq : dowQualifies e = false := by
        rw [dowQualifies, he]
        rfl
      have hstep : dowStep cost m e = m := by rw [dowStep, he]
      simp only [List.foldl_cons, hstep, hq, Bool.false_eq_true, if_false]
      exact ih m
    · by_cases hh : e.hoursWorked ≤ 0
      · have hq : dowQualifies e = false := by
          rw [dowQualifies, he]
          simp [hh, not_lt.mpr hh]
        have hstep : dowStep cost m e = m := by
          rw [dowStep, he]
          dsimp only
          rw [if_pos hh]
        simp only [List.foldl_cons, hstep, hq, Bool.false_eq_true, if_false]
        exact ih m
      · have hq : dowQualifies e = true := by
          rw [dowQualifies, he]
          simp [not_le.mp hh]
        simp only [List.foldl_cons, hq, if_true, List.foldl_cons]
        exact ih _

theorem dowChart_getD (cost : ℚ) (entries : List Entry) (i : Nat) (h : i < 7) :
    (dowChart cost entries).getD i (0, 0, 0)
      = dowRates ((dowFold cost entries).getD i ⟨0, 0, 0, 0, 0⟩) := by
  have h7 : i < (dowFold cost entries).length := by
    rw [dowFold_length]
    exact h
  rw [dowChart, List.getD_eq_getElem?_getD, List.getElem?_map,
    List.getElem?_eq_getElem h7, List.getD_eq_getElem?_getD, List.getElem?_eq_getElem h7]
  rfl

/-- C8: the day-of-week breakdown always has exactly 7 buckets (index
`0 = Sunday .. 6 = Saturday`); entries with `hoursWorked <= 0` or an
unparseable date are excluded (the chart over the full list equals the chart
over the qualifying sublist); and a day with no qualifying entries yields the
rate triple `(0, 0, 0)` — plain zeroes, not absent values. -/
theorem claim_C8 (cost : ℚ) (entries : List Entry) :
    (dowChart cost entries).length = 7
      ∧ dowChart cost entries = dowChart cost (entries.filter dowQualifies)
      ∧ (∀ i, i < 7 → ((dowFold cost entries).getD i ⟨0, 0, 0, 0, 0⟩).count = 0 →
          (dowChart cost entries).getD i (0, 0, 0) = (0, 0, 0)) := by
  refine ⟨?_, ?_, ?_⟩
  · rw [dowChart, List.length_map, dowFold_length]
  · rw [dowChart, dowChart, dowFold_filter]
  · intro i hi hc
    rw [dowChart_getD cost entries i hi, dowRates, hc]
    norm_num

/-- Witness for C8: a three-entry list with one qualifying entry, one
zero-hours entry, and one invalid-date entry. -/
theorem claim_C8_witness :
    (dowChart 1 [⟨"1", "2024-01-01", 10, 2, 2, 0⟩, ⟨"2", "2024-01-02", 8, 1, 0, 0⟩,
        ⟨"3", "not-a-date", 7, 1, 3, 0⟩]).length = 7
      ∧ dowChart 1 [⟨"1", "2024-01-01", 10, 2, 2, 0⟩, ⟨"2", "2024-01-02", 8, 1, 0, 0⟩,
          ⟨"3", "not-a-date", 7, 1, 3, 0⟩]
        = dowChart 1 ([⟨"1", "2024-01-01", 10, 2, 2, 0⟩, ⟨"2", "2024-01-02", 8, 1, 0, 0⟩,
            ⟨"3", "not-a-date", 7, 1, 3, 0⟩].filter dowQualifies)
      ∧ (0 < 7 ∧ ((dowFold 1 [⟨"1", "2024-01-01", 10, 2, 2, 0⟩,
            ⟨"2", "2024-01-02", 8, 1, 0, 0⟩, ⟨"3", "not-a-date", 7, 1, 3, 0⟩]).getD 0
              ⟨0, 0, 0, 0, 0⟩).count = 0
        ∧ (dowChart 1 [⟨"1", "2024-01-01", 10, 2, 2, 0⟩, ⟨"2", "2024-01-02", 8, 1, 0, 0⟩,
            ⟨"3", "not-a-date", 7, 1, 3, 0⟩]).getD 0 (0, 0, 0) = (0, 0, 0)) := by
  have h1 : parseDate "2024-01-01" = some ⟨2024, 1, 1⟩ := by decide
  have h2 : parseDate "2024-01-02" = some ⟨2024, 1, 2⟩ := by decide
  have h3 : parseDate "not-a-date" = none := by decide
  have hcount : ((dowFold 1 [⟨"1", "2024-01-01", 10, 2, 2, 0⟩,
      ⟨"2", "2024-01-02", 8, 1, 0, 0⟩, ⟨"3", "not-a-date", 7, 1, 3, 0⟩]).getD 0
        ⟨0, 0, 0, 0, 0⟩).count = 0 := by
    have hidx : dowIndex ⟨2024, 1, 1⟩ = 1 := by decide
    have hq1 : ¬((2:ℚ) ≤ 0) := by norm_num
    simp [dowFold, dowStep, h1, h2, h3, hidx, hq1]
  exact ⟨(claim_C8 1 _).1, (claim_C8 1 _).2.1,
    by norm_num, hcount, (claim_C8 1 _).2.2 0 (by norm_num) hcount⟩

/-- C10 (implicit): every entry accumulated into a day bucket has
`hoursWorked > 0`, so a bucket with positive count has positive total hours;
hence `totalProfit / totalHours` and `totalEarnings / totalHours` never divide
by zero even though the source guards on `count` rather than `totalHours`, and
for finite inputs the rates are plain finite rationals (no NaN or Infinity). -/
theorem claim_C10 (cost : ℚ) (entries : List Entry) (i : Nat)
    (h : 0 < ((dowFold cost entries).getD i ⟨0, 0, 0, 0, 0⟩).count) :
    0 < ((dowFold cost entries).getD i ⟨0, 0, 0, 0, 0⟩).totalHours := by
  rw [dowFold] at *
  have inv : ∀ (l : List Entry) (m : List DayAcc),
      (∀ j, 0 ≤ (m.getD j ⟨0, 0, 0, 0, 0⟩).totalHours
        ∧ (0 < (m.getD j ⟨0, 0, 0, 0, 0⟩).count → 0 < (m.getD j ⟨0, 0, 0, 0, 0⟩).totalHours)) →
      ∀ j, 0 ≤ ((l.foldl (dowStep cost) m).getD j ⟨0, 0, 0, 0, 0⟩).totalHours
        ∧ (0 < ((l.foldl (dowStep cost) m).getD j ⟨0, 0, 0, 0, 0⟩).count →
          0 < ((l.foldl (dowStep cost) m).getD j ⟨0, 0, 0, 0, 0⟩).totalHours) := by
    intro l
    induction l with
    | nil => intro m hm; exact hm
    | cons e rest ih =>
      intro m hm
      rw [List.foldl_cons]
      refine ih (dowStep cost m e) ?_
      intro j
      rw [dowStep]
      rcases parseDate e.date with _ | c
      · exact hm j
      · dsimp only
        split
        · exact hm j
        · rename_i hh
          push_neg at hh
          by_cases hij : dowIndex c = j
          · subst hij
            by_cases hlen : dowIndex c < m.length
            · rw [List.getD_eq_getElem?_getD, List.getElem?_set_self hlen]
              have := hm (dowIndex c)
              constructor
              · dsimp only [Option.getD]
                have h0 := (hm (dowIndex c)).1
                positivity
              · intro _
                dsimp only [Option.getD]
                have h0 := (hm (dowIndex c)).1
                positivity
            · rw [List.set_eq_of_length_le (by omega)]
              exact hm (dowIndex c)
          · rw [List.getD_eq_getElem?_getD, List.getElem?_set_ne hij,
              ← List.getD_eq_getElem?_getD]
            exact hm j
  exact (inv entries (List.replicate 7 ⟨0, 0, 0, 0, 0⟩) (by
    intro j
    have hbase : (List.replicate 7 (⟨0, 0, 0, 0, 0⟩ : DayAcc)).getD j ⟨0, 0, 0, 0, 0⟩
        = ⟨0, 0, 0, 0, 0⟩ := by
      rcases Nat.lt_or_ge j 7 with hj | hj
      · rw [List.getD_eq_getElem?_getD,
          List.getElem?_eq_getElem (by simpa using hj), List.getElem_replicate]
        rfl
      · rw [List.getD_eq_getElem?_getD, List.getElem?_eq_none (by simpa using hj)]
        rfl
    rw [hbase]
    exact ⟨le_refl 0, fun hc => absurd hc (by norm_num)⟩) i).2 h

/-- Witness for C10 at the qualifying Monday entry of the C8 list. -/
theorem claim_C10_witness :
    0 < ((dowFold 1 [⟨"1", "2024-01-01", 10, 2, 2, 0⟩]).getD 1 ⟨0, 0, 0, 0, 0⟩).count
      ∧ 0 < ((dowFold 1 [⟨"1", "2024-01-01", 10, 2, 2, 0⟩]).getD 1 ⟨0, 0, 0, 0, 0⟩).totalHours := by
  have h1 : parseDate "2024-01-01" = some ⟨2024, 1, 1⟩ := by decide
  have hidx : dowIndex ⟨2024, 1, 1⟩ = 1 := by decide
  have hc : 0 < ((dowFold 1 [⟨"1", "2024-01-01", 10, 2, 2, 0⟩]).getD 1 ⟨0, 0, 0, 0, 0⟩).count := by
    have hq1 : ¬((2:ℚ) ≤ 0) := by norm_num
    simp [dowFold, dowStep, h1, hidx, hq1]
  exact ⟨hc, claim_C10 1 _ 1 hc⟩

/-- The two report window units of the performance optimizer
(PerformanceOptimizer line 75: `'week' | 'month'`). -/
inductive PeriodType
  | week
  | month
  deriving DecidableEq, Repr

/-- Navigation direction (`'prev' | 'next'`). -/
inductive Direction
  | prev
  | next
  deriving DecidableEq, Repr

/-- The sign of `direction === 'prev' ? -k : k`. -/
def dirSign (dir : Direction) : Int :=
  match dir with
  | Direction.prev => -1
  | Direction.next => 1

/-- `handleDateChange` (PerformanceOptimizer lines 81–91) on the day number
of the anchor: for weeks, `setDate(getDate() ± 7)`; for months,
`setMonth(getMonth() ± 1)`. JavaScript `Date` normalises an out-of-range
day or month field by rolling it over, which is exactly the linear
continuation of `daysFromCivil` in its day argument and the year carry in
its month argument. -/
def handleDateChange (z : Int) (pt : PeriodType) (dir : Direction) : Int :=
  match pt with
  | PeriodType.week =>
    daysFromCivil (civilFromDays z).year (civilFromDays z).month
      ((civilFromDays z).day + 7 * dirSign dir)
  | PeriodType.month =>
    daysFromCivil (civilFromDays z).year ((civilFromDays z).month + dirSign dir)
      (civilFromDays z).day

theorem dfc_shift (y m d k : Int) :
    daysFromCivil y m (d + k) = daysFromCivil y m d + k := by
  rw [dfc_d_linear y m (d + k), dfc_d_linear y m d]
  ring

theorem dfc_month13 (y d : Int) : daysFromCivil y 13 d = daysFromCivil (y + 1) 1 d := by
  have a1 : ¬((13:Int) ≤ 2) := by norm_num
  have a2 : ((2:Int) < 13) := by norm_num
  have a3 : ((1:Int) ≤ 2) := by norm_num
  have a4 : ¬((2:Int) < 1) := by norm_num
  simp only [daysFromCivil, if_neg a1, if_pos a2, if_pos a3, if_neg a4, add_sub_cancel_right]
  norm_num

theorem dfc_month0 (y d : Int) : daysFromCivil y 0 d = daysFromCivil (y - 1) 12 d := by
  have a1 : ((0:Int) ≤ 2) := by norm_num
  have a2 : ¬((2:Int) < 0) := by norm_num
  have a3 : ¬((12:Int) ≤ 2) := by norm_num
  have a4 : ((2:Int) < 12) := by norm_num
  simp only [daysFromCivil, if_pos a1, if_neg a2, if_neg a3, if_pos a4]
  norm_num

theorem handleDateChange_week (z : Int) (dir : Direction) :
    handleDateChange z PeriodType.week dir = z + 7 * dirSign dir := by
  show daysFromCivil (civilFromDays z).year (civilFromDays z).month
      ((civilFromDays z).day + 7 * dirSign dir) = z + 7 * dirSign dir
  rw [dfc_shift, daysFromCivil_civilFromDays]

/-- C9 counterexample: from the anchor 2024-01-31, navigating one month
forward lands on 2024-03-02, not the clamped 2024-02-29: `setMonth` keeps
the day-of-month field and rolls the overflow into the following month. -/
theorem claim_C9_counterexample :
    civilFromDays (handleDateChange (daysFromCivil 2024 1 31) PeriodType.month Direction.next)
        = ⟨2024, 3, 2⟩
      ∧ (⟨2024, 3, 2⟩ : CivilDate) ≠ ⟨2024, 2, 29⟩ := by
  constructor
  · decide
  · decide

/-- C9 (corrected): week navigation moves the anchor by exactly 7 calendar
days in either direction (never a fixed 30-day offset). Month navigation
increments or decrements the month field: for an anchor whose day-of-month
is at most 28 this is an exact one-calendar-month shift preserving the
day-of-month (with the year carried across December/January), but the
day-of-month is NOT clamped — a day past the end of the target month
overflows into the month after it. -/
theorem claim_C9 (y m d : Int) (h : ValidDate ⟨y, m, d⟩) (hd : d ≤ 28) :
    (∀ z : Int, handleDateChange z PeriodType.week Direction.next = z + 7
      ∧ handleDateChange z PeriodType.week Direction.prev = z - 7)
      ∧ civilFromDays (handleDateChange (daysFromCivil y m d) PeriodType.month Direction.next)
        = (if m = 12 then ⟨y + 1, 1, d⟩ else ⟨y, m + 1, d⟩)
      ∧ civilFromDays (handleDateChange (daysFromCivil y m d) PeriodType.month Direction.prev)
        = (if m = 1 then ⟨y - 1, 12, d⟩ else ⟨y, m - 1, d⟩) := by
  obtain ⟨h1, h2, h3, h4⟩ := h
  have hm1 : (1:Int) ≤ m := h1
  have hm2 : m ≤ 12 := h2
  have hd1 : (1:Int) ≤ d := h3
  have hc : civilFromDays (daysFromCivil y m d) = ⟨y, m, d⟩ :=
    civilFromDays_daysFromCivil y m d h1 h2 h3 hd
  refine ⟨fun z => ⟨?_, ?_⟩, ?_, ?_⟩
  · rw [handleDateChange_week]
    norm_num [dirSign]
  · rw [handleDateChange_week]
    simp only [dirSign]
    ring
  · show civilFromDays (daysFromCivil (civilFromDays (daysFromCivil y m d)).year
        ((civilFromDays (daysFromCivil y m d)).month + dirSign Direction.next)
        (civilFromDays (daysFromCivil y m d)).day) = _
    rw [hc]
    by_cases hm : m = 12
    · subst hm
      rw [if_pos rfl]
      have h13 : (12 : Int) + dirSign Direction.next = 13 := by decide
      rw [h13, dfc_month13]
      exact civilFromDays_daysFromCivil (y + 1) 1 d (by norm_num) (by norm_num) h3 hd
    · rw [if_neg hm]
      have hstep : m + dirSign Direction.next = m + 1 := rfl
      rw [hstep]
      exact civilFromDays_daysFromCivil y (m + 1) d (by omega) (by omega) h3 hd
  · show civilFromDays (daysFromCivil (civilFromDays (daysFromCivil y m d)).year
        ((civilFromDays (daysFromCivil y m d)).month + dirSign Direction.prev)
        (civilFromDays (daysFromCivil y m d)).day) = _
    rw [hc]
    by_cases hm : m = 1
    · subst hm
      rw [if_pos rfl]
      have h0 : (1 : Int) + dirSign Direction.prev = 0 := by decide
      rw [h0, dfc_month0]
      exact civilFromDays_daysFromCivil (y - 1) 12 d (by norm_num) (by norm_num) h3 hd
    · rw [if_neg hm]
      have hstep : m + dirSign Direction.prev = m - 1 := by
        simp only [dirSign]
        ring
      rw [hstep]
      exact civilFromDays_daysFromCivil y (m - 1) d (by omega) (by omega) h3 hd

/-- Witness for C9 at the anchor 2024-06-15. -/
theorem claim_C9_witness :
    ValidDate ⟨2024, 6, 15⟩ ∧ (15:Int) ≤ 28
      ∧ civilFromDays (handleDateChange (daysFromCivil 2024 6 15) PeriodType.month Direction.next)
        = ⟨2024, 7, 15⟩ := by
  refine ⟨by decide, by decide, ?_⟩
  have h := (claim_C9 2024 6 15 (by decide) (by decide)).2.1
  rw [if_neg (by decide : ¬(6:Int) = 12)] at h
  exact h

end GanhosPro
